import Mathlib

set_option maxHeartbeats 1000000
set_option maxRecDepth 8192

/-!
Verification development for the darwin reader-driver audio subsystem
(`audio/internal/readerdriver/driver_darwin.go`).

The Go file is shallowly embedded as pure Lean functions.  Native
AudioToolbox calls are external effects; each kind of native call is
modelled by an oracle (a function from the call index to the returned
`OSStatus`), and every player or pool state carries the per-kind call
counters, so Go code that inspects a native return value becomes Lean code
that inspects the oracle at the current counter.  The byte source
(`io.Reader`) is modelled the same way: a function from the read index to
the returned chunk and status.  The two unbounded loops of the source
(`playImpl`'s initial fill loop and its `AudioQueuePrime` retry loop) are
given explicit fuel; exhausting the fuel returns the state reached so far
together with a marker that the loop was still running.
-/

/-- Status of a native audio-toolbox call.  The Go code distinguishes
`noErr`, `AVAudioSessionErrorCodeSiriIsRecording`,
`kAudioQueueErr_EnqueueDuringReset`, and everything else. -/
inductive OSStatus where
  | noErr
  | siriIsRecording
  | enqueueDuringReset
  | other (code : Nat)
deriving DecidableEq

/-- The Go `error` values produced by this file, one constructor per
`fmt.Errorf` site plus the pass-through source read error. -/
inductive GoErr where
  | newOutputFailed (st : OSStatus)
  | allocateBufferFailed (st : OSStatus)
  | freeBufferFailed (st : OSStatus)
  | disposeFailed (st : OSStatus)
  | srcReadFailed (code : Nat)
  | enqueueFailed (st : OSStatus)
  | primeFailed (st : OSStatus)
  | startFailed (st : OSStatus)
  | pauseFailed (st : OSStatus)
  | stopFailed (st : OSStatus)
deriving DecidableEq

/-- Outcome tag of one `src.Read` call: success, `io.EOF`, or another
error.  Go readers may return bytes together with `io.EOF`. -/
inductive ReadRes where
  | ok
  | eof
  | err (code : Nat)
deriving DecidableEq

/-- Oracles for the native calls made on behalf of one player, and for its
byte source.  Index `n` is the result of the `n`-th call of that kind. -/
structure Env where
  readResults : Nat → List Nat × ReadRes
  enqueueResults : Nat → OSStatus
  primeResults : Nat → OSStatus
  startResults : Nat → OSStatus
  pauseResults : Nat → OSStatus
  stopResults : Nat → OSStatus

/-- Oracles for the native calls made by the pool
(`AudioQueueNewOutput`, `AudioQueueAllocateBuffer`, `AudioQueueFreeBuffer`,
`AudioQueueDispose`). -/
structure PoolEnv where
  newOutputResults : Nat → OSStatus
  allocResults : Nat → OSStatus
  freeResults : Nat → OSStatus
  disposeResults : Nat → OSStatus

/-- One pool entry: an `AudioQueueRef` handle with its allocated
`AudioQueueBufferRef` handles (handles are modelled as naturals). -/
structure audioQueuePoolItem where
  queue : Nat
  bufs : List Nat
deriving DecidableEq

/-- `audioQueuePoolMaxItemNum` from the source. -/
def audioQueuePoolMaxItemNum : Nat := 32

/-- The pool state: the `unused` and `used` item lists, a freshness
counter supplying new native queue handles, and the native-call counters
for the pool-side oracles. -/
structure audioQueuePool where
  unused : List audioQueuePoolItem
  used : List audioQueuePoolItem
  fresh : Nat
  newCalls : Nat
  allocCalls : Nat
  freeCalls : Nat
  disposeCalls : Nat
deriving DecidableEq

/-- The driver context.  `sampleRate`, `channelNum` and `bitDepthInBytes`
are the fields of the Go `context` struct. -/
structure context where
  sampleRate : Nat
  channelNum : Nat
  bitDepthInBytes : Nat
  oneBufSize : Nat

/-- Modelled from the spec: `oneBufferSize` is the byte size of one
hardware buffer, "computed from format and a fixed buffer-duration
target".  Its defining formula lives in the cross-platform driver file
which is not part of the given source, so the derived byte count is kept
as an abstract field of the context. -/
def context.oneBufferSize (c : context) : Nat := c.oneBufSize

/-- Modelled from the spec: `maxBufferSize` is the total number of bytes
the player keeps staged, "typically 2 × `oneBufferSize`".  Its definition
also lives outside the given source file. -/
def context.maxBufferSize (c : context) : Nat := 2 * c.oneBufferSize

/-- The buffer-allocation loop inside `audioQueuePool.Get`: allocate
`remaining` buffers, threading the `AudioQueueAllocateBuffer` call counter
and generating fresh buffer handles from `h`.  On the first failing
allocation the loop stops with the error, exactly as the Go `for` loop
returns early. -/
def allocBufs (penv : PoolEnv) : Nat → Nat → Nat → List Nat → Nat × Except GoErr (List Nat)
  | 0, calls, _, acc => (calls, .ok acc)
  | remaining + 1, calls, h, acc =>
    match penv.allocResults calls with
    | .noErr => allocBufs penv remaining (calls + 1) (h + 1) (acc ++ [h])
    | st => (calls + 1, .error (.allocateBufferFailed st))

/-- `audioQueuePool.Get`: reuse the first unused item when one exists,
otherwise create a new native queue and allocate its two buffers; the new
item is appended to `used`.  A native failure returns the error; a failed
buffer allocation leaves the item unrecorded (no partial bookkeeping). -/
def audioQueuePool.Get (penv : PoolEnv) (a : audioQueuePool) :
    audioQueuePool × Except GoErr (Nat × List Nat) :=
  match a.unused with
  | q :: rest =>
    ({a with unused := rest, used := a.used ++ [q]}, .ok (q.queue, q.bufs))
  | [] =>
    match penv.newOutputResults a.newCalls with
    | .noErr =>
      let q := a.fresh
      let a1 : audioQueuePool := {a with newCalls := a.newCalls + 1, fresh := a.fresh + 1}
      match allocBufs penv 2 a1.allocCalls (2 * q) [] with
      | (calls, .error e) => ({a1 with allocCalls := calls}, .error e)
      | (calls, .ok bufs) =>
        ({a1 with allocCalls := calls, used := a1.used ++ [⟨q, bufs⟩]}, .ok (q, bufs))
    | st => ({a with newCalls := a.newCalls + 1}, .error (.newOutputFailed st))

/-- The lookup performed by `audioQueuePool.Put`'s `for` loop: find the
first `used` item whose queue handle matches, splitting the list around
it. -/
def findItem : List audioQueuePoolItem → Nat →
    Option (List audioQueuePoolItem × audioQueuePoolItem × List audioQueuePoolItem)
  | [], _ => none
  | q :: rest, aq =>
    if q.queue = aq then some ([], q, rest)
    else
      match findItem rest aq with
      | none => none
      | some (pre, it, post) => some (q :: pre, it, post)

/-- The buffer-teardown loop inside `audioQueuePool.Put`: free each buffer
of the removed item, stopping at the first `AudioQueueFreeBuffer`
failure. -/
def freeBufs (penv : PoolEnv) : List Nat → Nat → Nat × Option GoErr
  | [], calls => (calls, none)
  | _ :: rest, calls =>
    match penv.freeResults calls with
    | .noErr => freeBufs penv rest (calls + 1)
    | st => (calls + 1, some (.freeBufferFailed st))

/-- `audioQueuePool.Put`: a handle not found in `used` is silently
ignored.  A found item is removed from `used`; it is cached in `unused`
when the pool is below `audioQueuePoolMaxItemNum`, and otherwise its
buffers are freed and its queue disposed (errors are reported, but the
item stays removed from the bookkeeping either way). -/
def audioQueuePool.Put (penv : PoolEnv) (a : audioQueuePool) (audioQueue : Nat) :
    audioQueuePool × Option GoErr :=
  match findItem a.used audioQueue with
  | none => (a, none)
  | some (pre, q, post) =>
    let used1 := pre ++ post
    if a.unused.length + used1.length < audioQueuePoolMaxItemNum then
      ({a with used := used1, unused := a.unused ++ [q]}, none)
    else
      match freeBufs penv q.bufs a.freeCalls with
      | (calls, some e) => ({a with used := used1, freeCalls := calls}, some e)
      | (calls, none) =>
        let ds := penv.disposeResults a.disposeCalls
        let a1 : audioQueuePool :=
          {a with used := used1, freeCalls := calls, disposeCalls := a.disposeCalls + 1}
        if ds = .noErr then (a1, none) else (a1, some (.disposeFailed ds))

/-- The loop of `audioQueuePool.Prepare`: `audioQueuePoolMaxItemNum`
eager `Get` calls, aborting on the first error. -/
def prepareLoop (penv : PoolEnv) : Nat → audioQueuePool → Option audioQueuePool
  | 0, a => some a
  | n + 1, a =>
    match audioQueuePool.Get penv a with
    | (a1, .ok _) => prepareLoop penv n a1
    | (_, .error _) => none

/-- The zero-valued pool a fresh `context` starts with. -/
def emptyPool : audioQueuePool := ⟨[], [], 0, 0, 0, 0, 0⟩

/-- `audioQueuePool.Prepare`: pre-warm the pool with a full complement of
items, then mark them all idle (`a.unused = a.used; a.used = a.used[:0]`). -/
def audioQueuePool.Prepare (penv : PoolEnv) : Option audioQueuePool :=
  (prepareLoop penv audioQueuePoolMaxItemNum emptyPool).map
    (fun a => {a with unused := a.used, used := []})

/-- A pool operation: one `Get` or one `Put` of a given handle. -/
inductive PoolOp where
  | get
  | put (q : Nat)

/-- Apply one pool operation (dropping the returned values). -/
def poolStep (penv : PoolEnv) (a : audioQueuePool) : PoolOp → audioQueuePool
  | .get => (audioQueuePool.Get penv a).1
  | .put q => (audioQueuePool.Put penv a q).1

/-- Run a sequence of pool operations. -/
def poolRun (penv : PoolEnv) (a : audioQueuePool) (ops : List PoolOp) : audioQueuePool :=
  ops.foldl (poolStep penv) a

/-- The number of resident pool items. -/
def resident (a : audioQueuePool) : Nat := a.unused.length + a.used.length

/-- The true resident-count invariant of the pool: whenever any idle item
remains, the resident count is within `audioQueuePoolMaxItemNum`; the
count can exceed the maximum only via items simultaneously in use (handed
out by `Get` when no idle item was available). -/
def poolResidentInv (a : audioQueuePool) : Prop :=
  a.unused ≠ [] → resident a ≤ audioQueuePoolMaxItemNum

/-- A pool environment whose native calls all succeed. -/
def penvAllOk : PoolEnv :=
  ⟨fun _ => .noErr, fun _ => .noErr, fun _ => .noErr, fun _ => .noErr⟩

/-- The concrete pre-warmed pool produced by `Prepare` under the all-ok
pool environment. -/
def preparedPoolA : audioQueuePool :=
  (audioQueuePool.Prepare penvAllOk).getD emptyPool

/-- The player state tag (`playerPaused`, `playerPlay`, `playerClosed`).
Modelled from the spec: the constants are declared in the cross-platform
driver file, outside the given source; the darwin file only compares and
assigns them. -/
inductive playerState where
  | paused
  | play
  | closed
deriving DecidableEq

/-- The mutable fields of the Go `playerImpl` struct (its `context` and
`src` references are passed as parameters instead), together with the
per-kind native-call counters used to index the oracles of `Env`. -/
structure playerImpl where
  audioQueue : Option Nat
  buf : List Nat
  unqueuedBufs : List Nat
  state : playerState
  err : Option GoErr
  eof : Bool
  volume : ℚ
  reads : Nat
  enqueues : Nat
  primes : Nat
  starts : Nat
  pauses : Nat
  stops : Nat
deriving DecidableEq

/-- Exit marker for the fuelled loops: the loop finished normally or
stopped with an error value. -/
inductive LoopExit where
  | ok
  | fail (e : GoErr)
deriving DecidableEq

/-- The initial synchronous fill loop of `playImpl`: read from the source
until the backlog reaches `maxBufferSize`; a non-EOF read error exits with
that error, `io.EOF` appends the returned bytes, sets `eof` and breaks.
`none` as second component means the fuel ran out with the loop still
running. -/
def fillLoop (c : context) (env : Env) : Nat → playerImpl → playerImpl × Option LoopExit
  | 0, p => (p, none)
  | fuel + 1, p =>
    if p.buf.length < c.maxBufferSize then
      let r := env.readResults p.reads
      let p1 : playerImpl := {p with reads := p.reads + 1}
      match r.2 with
      | .err code => (p1, some (.fail (.srcReadFailed code)))
      | .ok => fillLoop c env fuel {p1 with buf := p1.buf ++ r.1.take c.maxBufferSize}
      | .eof => ({p1 with buf := p1.buf ++ r.1.take c.maxBufferSize, eof := true}, some .ok)
    else (p, some .ok)

/-- `playerImpl.appendBufferImpl`: with `eof` set and an empty backlog the
buffer is not enqueued; otherwise up to `oneBufferSize` backlog bytes are
written into the native buffer (a native-memory effect outside the Go
heap) and the buffer is enqueued.  `kAudioQueueErr_EnqueueDuringReset` is
not an error and leaves the buffer unqueued; only a successful enqueue
consumes the backlog bytes. -/
def appendBufferImpl (c : context) (env : Env) (p : playerImpl) (_inBuffer : Nat) :
    playerImpl × Except GoErr Bool :=
  if p.eof ∧ p.buf = [] then (p, .ok false)
  else
    let n := min c.oneBufferSize p.buf.length
    let st := env.enqueueResults p.enqueues
    let p1 : playerImpl := {p with enqueues := p.enqueues + 1}
    match st with
    | .noErr => ({p1 with buf := p1.buf.drop n}, .ok true)
    | .enqueueDuringReset => (p1, .ok false)
    | s => (p1, .error (.enqueueFailed s))

/-- The drain loop of `playImpl`: try to append every currently unqueued
buffer, collecting the ones that did not enqueue. -/
def drainBufs (c : context) (env : Env) : List Nat → List Nat → playerImpl →
    playerImpl × Except GoErr (List Nat)
  | [], acc, p => (p, .ok acc)
  | b :: rest, acc, p =>
    match appendBufferImpl c env p b with
    | (p1, .error e) => (p1, .error e)
    | (p1, .ok true) => drainBufs c env rest acc p1
    | (p1, .ok false) => drainBufs c env rest (acc ++ [b]) p1

/-- The `AudioQueuePrime` retry loop of `playImpl`: retry while the status
is `AVAudioSessionErrorCodeSiriIsRecording`, break on `noErr`, and fail on
any other status.  `none` as second component means the fuel ran out with
the loop still retrying. -/
def primeLoop (env : Env) : Nat → playerImpl → playerImpl × Option LoopExit
  | 0, p => (p, none)
  | fuel + 1, p =>
    let st := env.primeResults p.primes
    let p1 : playerImpl := {p with primes := p.primes + 1}
    match st with
    | .noErr => (p1, some .ok)
    | .siriIsRecording => primeLoop env fuel p1
    | s => (p1, some (.fail (.primeFailed s)))

/-- Whether the prime retry loop ever exits under the given oracle,
starting from the given player. -/
def primeLoopTerminates (env : Env) (p : playerImpl) : Prop :=
  ∃ fuel, (primeLoop env fuel p).2.isSome

/-- The world of one player: the player record, the shared pool, whether
the player is currently registered in `thePlayers.players` (keyed by its
queue handle), and the ghost trace of `AudioQueueSetParameter` volume
calls (queue handle, volume). -/
structure World where
  p : playerImpl
  pool : audioQueuePool
  registered : Bool
  params : List (Nat × ℚ)
deriving DecidableEq

/-- The queue-acquisition step at the top of `playImpl`: when the player
has no queue, `Get` one from the pool; on success store the handle and its
buffers, apply the cached volume to the new queue
(`AudioQueueSetParameter`) and register with `thePlayers`. -/
def playAcquire (penv : PoolEnv) (s : World) : World × Option GoErr :=
  match s.p.audioQueue with
  | some _ => (s, none)
  | none =>
    match audioQueuePool.Get penv s.pool with
    | (pool1, .error e) => ({s with pool := pool1}, some e)
    | (pool1, .ok (q, bufs)) =>
      ({s with pool := pool1,
               p := {s.p with audioQueue := some q, unqueuedBufs := bufs},
               params := s.params ++ [(q, s.p.volume)],
               registered := true}, none)

/-- `playerImpl.closeAudioQueue`: nothing to do without a queue; otherwise
`AudioQueueStop` (a failure is an error only while no player error is
stored), then return the queue to the pool (again, a `Put` error counts
only while no player error is stored), then unregister from `thePlayers`
and clear the handle. -/
def closeAudioQueue (env : Env) (penv : PoolEnv) (s : World) : World × Option GoErr :=
  match s.p.audioQueue with
  | none => (s, none)
  | some q =>
    let st := env.stopResults s.p.stops
    let s1 : World := {s with p := {s.p with stops := s.p.stops + 1}}
    if st ≠ .noErr ∧ s1.p.err = none then (s1, some (.stopFailed st))
    else
      match audioQueuePool.Put penv s1.pool q with
      | (pool1, perr) =>
        let s2 : World := {s1 with pool := pool1}
        if perr.isSome ∧ s2.p.err = none then (s2, perr)
        else
          ({s2 with registered := false, p := {s2.p with audioQueue := none}}, none)

/-- `playerImpl.closeImpl`: tear the queue down; a teardown error is
stored only if no error is stored yet; the state becomes `closed` and the
stored error is returned. -/
def closeImpl (env : Env) (penv : PoolEnv) (s : World) : World × Option GoErr :=
  match closeAudioQueue env penv s with
  | (s1, cerr) =>
    let s2 : World :=
      if cerr.isSome ∧ s1.p.err = none then {s1 with p := {s1.p with err := cerr}} else s1
    let s3 : World := {s2 with p := {s2.p with state := .closed}}
    (s3, s3.p.err)

/-- `playerImpl.setErrorImpl`: store the error, then force a close. -/
def setErrorImpl (env : Env) (penv : PoolEnv) (e : GoErr) (s : World) : World :=
  (closeImpl env penv {s with p := {s.p with err := some e}}).1

/-- `playerImpl.playImpl`: a no-op on a stored error or outside `paused`;
otherwise acquire a queue if needed, run the initial fill, drain the
unqueued buffers, settle back to `paused` when exactly two buffers remain
unqueued at end-of-stream, and otherwise prime (with retry) and start the
queue, moving to `play`.  Any failure goes through `setErrorImpl`.
Exhausted fuel returns the state reached inside the still-running loop. -/
def playImpl (c : context) (env : Env) (penv : PoolEnv) (fuel : Nat) (s : World) : World :=
  if s.p.err.isSome then s
  else if s.p.state ≠ .paused then s
  else
    match playAcquire penv s with
    | (s1, some e) => setErrorImpl env penv e s1
    | (s1, none) =>
      match fillLoop c env fuel s1.p with
      | (p1, none) => {s1 with p := p1}
      | (p1, some (.fail e)) => setErrorImpl env penv e {s1 with p := p1}
      | (p1, some .ok) =>
        match drainBufs c env p1.unqueuedBufs [] p1 with
        | (p2, .error e) => setErrorImpl env penv e {s1 with p := p2}
        | (p2, .ok unenqueued) =>
          let p3 : playerImpl := {p2 with unqueuedBufs := unenqueued}
          if p3.unqueuedBufs.length = 2 ∧ p3.eof then
            {s1 with p := {p3 with state := .paused}}
          else
            match primeLoop env fuel p3 with
            | (p4, none) => {s1 with p := p4}
            | (p4, some (.fail e)) => setErrorImpl env penv e {s1 with p := p4}
            | (p4, some .ok) =>
              let st := env.startResults p4.starts
              let p5 : playerImpl := {p4 with starts := p4.starts + 1}
              if st ≠ .noErr then setErrorImpl env penv (.startFailed st) {s1 with p := p5}
              else {s1 with p := {p5 with state := .play}}

/-- `playerImpl.Pause`: a no-op on a stored error, outside `play`, or
without a queue; otherwise `AudioQueuePause` and move to `paused` (a
native failure goes through `setErrorImpl`). -/
def Pause (env : Env) (penv : PoolEnv) (s : World) : World :=
  if s.p.err.isSome then s
  else if s.p.state ≠ .play then s
  else if s.p.audioQueue = none then s
  else
    let st := env.pauseResults s.p.pauses
    let s1 : World := {s with p := {s.p with pauses := s.p.pauses + 1}}
    if st ≠ .noErr ∧ s1.p.err = none then setErrorImpl env penv (.pauseFailed st) s1
    else {s1 with p := {s1.p with state := .paused}}

/-- `playerImpl.resetImpl`: a no-op on a stored error, in `closed`, or
without a queue; otherwise release the queue (an error goes through
`setErrorImpl`), clear the backlog and the end-of-stream flag, and return
to `paused`. -/
def resetImpl (env : Env) (penv : PoolEnv) (s : World) : World :=
  if s.p.err.isSome then s
  else if s.p.state = .closed then s
  else if s.p.audioQueue = none then s
  else
    match closeAudioQueue env penv s with
    | (s1, some e) => setErrorImpl env penv e s1
    | (s1, none) => {s1 with p := {s1.p with state := .paused, buf := [], eof := false}}

/-- `playerImpl.Volume`. -/
def Volume (s : World) : ℚ := s.p.volume

/-- `playerImpl.Err`. -/
def Err (s : World) : Option GoErr := s.p.err

/-- `playerImpl.IsPlaying`. -/
def IsPlaying (s : World) : Bool := s.p.state = .play

/-- `playerImpl.UnplayedBufferSize`. -/
def UnplayedBufferSize (s : World) : Nat := s.p.buf.length

/-- `playerImpl.SetVolume`: store the volume unchanged and, when a queue
is held, apply it to that queue (`AudioQueueSetParameter`). -/
def SetVolume (v : ℚ) (s : World) : World :=
  let s1 : World := {s with p := {s.p with volume := v}}
  match s1.p.audioQueue with
  | none => s1
  | some q => {s1 with params := s1.params ++ [(q, v)]}

/-- `playerImpl.readSourceToBuffer` (the scheduler's refill step): a no-op
on a stored error, in `closed`, or with a full backlog; otherwise one
source read: a non-EOF error goes through `setErrorImpl`, otherwise the
bytes are appended and `eof` is set when the read reported `io.EOF` and
the backlog is empty afterwards. -/
def readSourceToBuffer (c : context) (env : Env) (penv : PoolEnv) (s : World) : World :=
  if s.p.err.isSome then s
  else if s.p.state = .closed then s
  else if c.maxBufferSize ≤ s.p.buf.length then s
  else
    let r := env.readResults s.p.reads
    let p1 : playerImpl := {s.p with reads := s.p.reads + 1}
    match r.2 with
    | .err code => setErrorImpl env penv (.srcReadFailed code) {s with p := p1}
    | res =>
      let p2 : playerImpl := {p1 with buf := p1.buf ++ r.1.take c.maxBufferSize}
      let p3 : playerImpl :=
        if res = .eof ∧ p2.buf = [] then {p2 with eof := true} else p2
      {s with p := p3}

/-- `ebiten_readerdriver_render` (the completion callback) for the single
player: dropped when the player is not registered; otherwise try to refill
and re-enqueue the completed buffer; if it did not enqueue, park it as
unqueued, and auto-reset once both buffers are parked at end-of-stream. -/
def ebiten_readerdriver_render (c : context) (env : Env) (penv : PoolEnv) (s : World)
    (inBuffer : Nat) : World :=
  if ¬ s.registered then s
  else
    match appendBufferImpl c env s.p inBuffer with
    | (p1, .error e) => setErrorImpl env penv e {s with p := p1}
    | (p1, .ok true) => {s with p := p1}
    | (p1, .ok false) =>
      let p2 : playerImpl := {p1 with unqueuedBufs := p1.unqueuedBufs ++ [inBuffer]}
      let s2 : World := {s with p := p2}
      if p2.unqueuedBufs.length = 2 ∧ p2.eof then resetImpl env penv s2 else s2

/-- One externally triggered operation on the single-player world. -/
inductive Op where
  | play (fuel : Nat)
  | pause
  | reset
  | close
  | setVolume (v : ℚ)
  | readSource
  | render (b : Nat)

/-- Apply one operation. -/
def step (c : context) (env : Env) (penv : PoolEnv) (s : World) : Op → World
  | .play fuel => playImpl c env penv fuel s
  | .pause => Pause env penv s
  | .reset => resetImpl env penv s
  | .close => (closeImpl env penv s).1
  | .setVolume v => SetVolume v s
  | .readSource => readSourceToBuffer c env penv s
  | .render b => ebiten_readerdriver_render c env penv s b

/-- Run a sequence of operations. -/
def run (c : context) (env : Env) (penv : PoolEnv) (s : World) (ops : List Op) : World :=
  ops.foldl (step c env penv) s

/-- The registration invariant: the player holds a queue handle exactly
when it is registered in `thePlayers.players`. -/
def queueInv (s : World) : Prop :=
  s.p.audioQueue.isSome ↔ s.registered

/-- Whether an operation is a Play, Pause or Reset request. -/
def Op.isPPR : Op → Bool
  | .play _ => true
  | .pause => true
  | .reset => true
  | _ => false

/-- Whether an operation is one of the explicit requests other than Reset
(and other than the completion callback, whose buffer-parking branch
itself performs the automatic Reset). -/
def Op.isNonReset : Op → Bool
  | .play _ => true
  | .pause => true
  | .close => true
  | .setVolume _ => true
  | .readSource => true
  | _ => false

/-- One entry of the global player collection: a player identity and its
mutable record. -/
structure MPlayer where
  pid : Nat
  ps : playerImpl
deriving DecidableEq

/-- The global state shared by all players: every live player, the
`thePlayers.players` registration map (queue handle to player), the
`thePlayers.toResume` set, and the shared pool. -/
structure MState where
  pls : List MPlayer
  regs : List (Nat × Nat)
  toResume : List Nat
  pool : audioQueuePool
deriving DecidableEq

/-- Look a player up by identity. -/
def getPl (st : MState) (pid : Nat) : Option playerImpl :=
  (st.pls.find? (fun m => m.pid = pid)).map (fun m => m.ps)

/-- Replace the record of one player. -/
def setPl (st : MState) (pid : Nat) (ps : playerImpl) : MState :=
  {st with pls := st.pls.map (fun m => if m.pid = pid then ⟨m.pid, ps⟩ else m)}

/-- Look up the player registered under a queue handle. -/
def lookupReg (regs : List (Nat × Nat)) (q : Nat) : Option Nat :=
  (regs.find? (fun e => e.1 = q)).map (fun e => e.2)

/-- `players.remove`: a handle with no registration entry is ignored;
otherwise the entry is deleted and the player is also dropped from
`toResume`. -/
def removeM (st : MState) (q : Nat) : MState :=
  match lookupReg st.regs q with
  | none => st
  | some pid =>
    {st with regs := st.regs.filter (fun e => ¬ e.1 = q),
             toResume := st.toResume.erase pid}

/-- `players.add`: register the player under its queue handle. -/
def addM (st : MState) (q : Nat) (pid : Nat) : MState :=
  {st with regs := st.regs ++ [(q, pid)]}

/-- `playerImpl.closeAudioQueue` on the global state, for player `pid`. -/
def closeAudioQueueM (env : Env) (penv : PoolEnv) (st : MState) (pid : Nat) :
    MState × Option GoErr :=
  match getPl st pid with
  | none => (st, none)
  | some p =>
    match p.audioQueue with
    | none => (st, none)
    | some q =>
      let stres := env.stopResults p.stops
      let p1 : playerImpl := {p with stops := p.stops + 1}
      let st1 := setPl st pid p1
      if stres ≠ .noErr ∧ p1.err = none then (st1, some (.stopFailed stres))
      else
        match audioQueuePool.Put penv st1.pool q with
        | (pool1, perr) =>
          let st2 : MState := {st1 with pool := pool1}
          if perr.isSome ∧ p1.err = none then (st2, perr)
          else
            let st3 := removeM st2 q
            (setPl st3 pid {p1 with audioQueue := none}, none)

/-- `playerImpl.closeImpl` on the global state. -/
def closeImplM (env : Env) (penv : PoolEnv) (st : MState) (pid : Nat) :
    MState × Option GoErr :=
  match closeAudioQueueM env penv st pid with
  | (st1, cerr) =>
    match getPl st1 pid with
    | none => (st1, none)
    | some p =>
      let p1 : playerImpl :=
        if cerr.isSome ∧ p.err = none then {p with err := cerr} else p
      let p2 : playerImpl := {p1 with state := .closed}
      (setPl st1 pid p2, p2.err)

/-- `playerImpl.setErrorImpl` on the global state. -/
def setErrorImplM (env : Env) (penv : PoolEnv) (st : MState) (pid : Nat) (e : GoErr) :
    MState :=
  match getPl st pid with
  | none => st
  | some p => (closeImplM env penv (setPl st pid {p with err := some e}) pid).1

/-- `playerImpl.Pause` on the global state. -/
def pauseM (env : Env) (penv : PoolEnv) (st : MState) (pid : Nat) : MState :=
  match getPl st pid with
  | none => st
  | some p =>
    if p.err.isSome then st
    else if p.state ≠ .play then st
    else if p.audioQueue = none then st
    else
      let stres := env.pauseResults p.pauses
      let p1 : playerImpl := {p with pauses := p.pauses + 1}
      let st1 := setPl st pid p1
      if stres ≠ .noErr ∧ p1.err = none then
        setErrorImplM env penv st1 pid (.pauseFailed stres)
      else setPl st1 pid {p1 with state := .paused}

/-- The post-acquisition part of `playerImpl.playImpl` on the global
state: the initial fill, the drain of the unqueued buffers, the
settle-to-paused check, prime and start. -/
def playMCore (c : context) (env : Env) (penv : PoolEnv) (fuel : Nat) (st1 : MState)
    (pid : Nat) : MState :=
  match getPl st1 pid with
  | none => st1
  | some q1 =>
    match fillLoop c env fuel q1 with
          | (p1, none) => setPl st1 pid p1
          | (p1, some (.fail e)) => setErrorImplM env penv (setPl st1 pid p1) pid e
          | (p1, some .ok) =>
            match drainBufs c env p1.unqueuedBufs [] p1 with
            | (p2, .error e) => setErrorImplM env penv (setPl st1 pid p2) pid e
            | (p2, .ok unenqueued) =>
              let p3 : playerImpl := {p2 with unqueuedBufs := unenqueued}
              if p3.unqueuedBufs.length = 2 ∧ p3.eof then
                setPl st1 pid {p3 with state := .paused}
              else
                match primeLoop env fuel p3 with
                | (p4, none) => setPl st1 pid p4
                | (p4, some (.fail e)) => setErrorImplM env penv (setPl st1 pid p4) pid e
                | (p4, some .ok) =>
                  let stres := env.startResults p4.starts
                  let p5 : playerImpl := {p4 with starts := p4.starts + 1}
                  if stres ≠ .noErr then
                    setErrorImplM env penv (setPl st1 pid p5) pid (.startFailed stres)
                  else setPl st1 pid {p5 with state := .play}

/-- `playerImpl.playImpl` on the global state: identical control flow to
`playImpl`, with registration going through `addM` and the
post-acquisition work in `playMCore`. -/
def playM (c : context) (env : Env) (penv : PoolEnv) (fuel : Nat) (st : MState)
    (pid : Nat) : MState :=
  match getPl st pid with
  | none => st
  | some p =>
    if p.err.isSome then st
    else if p.state ≠ .paused then st
    else
      let acquired : MState × Option GoErr :=
        match p.audioQueue with
        | some _ => (st, none)
        | none =>
          match audioQueuePool.Get penv st.pool with
          | (pool1, .error e) => ({st with pool := pool1}, some e)
          | (pool1, .ok (q, bufs)) =>
            (addM (setPl {st with pool := pool1} pid
              {p with audioQueue := some q, unqueuedBufs := bufs}) q pid, none)
      match acquired with
      | (st1, some e) => setErrorImplM env penv st1 pid e
      | (st1, none) => playMCore c env penv fuel st1 pid

/-- The `p.toResume[pl] = struct{}{}` step of `players.suspend`: record a
player in the resume set (a set: no duplicate entries). -/
def recordResume (st1 : MState) (pid : Nat) : MState :=
  {st1 with toResume :=
    if pid ∈ st1.toResume then st1.toResume else st1.toResume ++ [pid]}

/-- The loop body of `players.suspend`: walk the registered players; pause
every playing one, return its error if `Err()` reports one, and otherwise
record it in `toResume`. -/
def suspendGoM (c : context) (envs : Nat → Env) (penv : PoolEnv) :
    List (Nat × Nat) → MState → MState × Option GoErr
  | [], st => (st, none)
  | (_, pid) :: rest, st =>
    match getPl st pid with
    | none => suspendGoM c envs penv rest st
    | some p =>
      if p.state ≠ .play then suspendGoM c envs penv rest st
      else
        let st1 := pauseM (envs pid) penv st pid
        match (getPl st1 pid).bind (fun p1 => p1.err) with
        | some e => (st1, some e)
        | none => suspendGoM c envs penv rest (recordResume st1 pid)

/-- `players.suspend`. -/
def suspendM (c : context) (envs : Nat → Env) (penv : PoolEnv) (st : MState) :
    MState × Option GoErr :=
  suspendGoM c envs penv st.regs st

/-- The loop body of `players.resume`: call Play on every snapshotted
player, returning its error if `Err()` reports one.  The list of players
Play was invoked on is returned as a ghost output. -/
def resumeGoM (c : context) (envs : Nat → Env) (penv : PoolEnv) (fuel : Nat) :
    List Nat → MState → MState × List Nat × Option GoErr
  | [], st => (st, [], none)
  | pid :: rest, st =>
    let st1 := playM c (envs pid) penv fuel st pid
    match (getPl st1 pid).bind (fun p1 => p1.err) with
    | some e => (st1, [pid], some e)
    | none =>
      match resumeGoM c envs penv fuel rest st1 with
      | (st2, played, e) => (st2, pid :: played, e)

/-- `players.resume`: drain `toResume` into a private snapshot, then call
Play on each snapshotted player outside the registration lock. -/
def resumeM (c : context) (envs : Nat → Env) (penv : PoolEnv) (fuel : Nat)
    (st : MState) : MState × List Nat × Option GoErr :=
  resumeGoM c envs penv fuel st.toResume {st with toResume := []}

/-- A player environment whose native calls all succeed and whose source
never fails (reads may still return arbitrary data or end-of-stream). -/
def goodEnv (e : Env) : Prop :=
  (∀ n, e.enqueueResults n = .noErr) ∧ (∀ n, e.primeResults n = .noErr) ∧
  (∀ n, e.startResults n = .noErr) ∧ (∀ n, e.pauseResults n = .noErr) ∧
  (∀ n, e.stopResults n = .noErr) ∧ (∀ n code, (e.readResults n).2 ≠ .err code)

/-- A pool environment whose native calls all succeed. -/
def goodPenv (penv : PoolEnv) : Prop :=
  (∀ n, penv.newOutputResults n = .noErr) ∧ (∀ n, penv.allocResults n = .noErr) ∧
  (∀ n, penv.freeResults n = .noErr) ∧ (∀ n, penv.disposeResults n = .noErr)

/-- A concrete context: stereo 16-bit 44.1kHz with a 4096-byte buffer. -/
def c0 : context := ⟨44100, 2, 2, 4096⟩

/-- A freshly created player (`NewPlayer`): paused, no queue, empty
backlog, no error, volume 1. -/
def p0 : playerImpl := ⟨none, [], [], .paused, none, false, 1, 0, 0, 0, 0, 0, 0⟩

/-- A small concrete pool holding one idle item. -/
def poolSmall : audioQueuePool := ⟨[⟨100, [201, 202]⟩], [], 0, 0, 0, 0, 0⟩

/-- The single-player world of a fresh player over `poolSmall`. -/
def w0 : World := ⟨p0, poolSmall, false, []⟩

/-- An environment whose native calls all succeed and whose source
immediately reports end-of-stream with no bytes. -/
def envEmptySrc : Env :=
  ⟨fun _ => ([], .eof), fun _ => .noErr, fun _ => .noErr, fun _ => .noErr,
   fun _ => .noErr, fun _ => .noErr⟩

/-- An environment whose native calls all succeed and whose source returns
one byte together with end-of-stream on every read. -/
def envOneByte : Env :=
  ⟨fun _ => ([1], .eof), fun _ => .noErr, fun _ => .noErr, fun _ => .noErr,
   fun _ => .noErr, fun _ => .noErr⟩

/-- An environment in which every `AudioQueuePrime` call reports the
Siri-recording busy status forever. -/
def envSiri : Env :=
  ⟨fun _ => ([], .ok), fun _ => .noErr, fun _ => .siriIsRecording, fun _ => .noErr,
   fun _ => .noErr, fun _ => .noErr⟩

/-- A concrete pool at full capacity plus one extra in-use item, used to
exhibit the release-at-capacity teardown. -/
def poolAtCap : audioQueuePool :=
  ⟨(List.range 32).map (fun i => ⟨i, [2 * i, 2 * i + 1]⟩), [⟨100, [201, 202]⟩],
   0, 0, 0, 0, 0⟩

/-- A fresh player that has reached end-of-stream. -/
def pEof : playerImpl := {p0 with eof := true}

/-- The single-player world of `pEof`. -/
def wEof : World := ⟨pEof, poolSmall, false, []⟩

/-- A playing, registered player holding queue handle 100 at end-of-stream
with one backlog byte. -/
def pQueued : playerImpl :=
  {p0 with audioQueue := some 100, state := playerState.play, eof := true, buf := [7]}

/-- The single-player world of `pQueued`. -/
def wQueued : World := ⟨pQueued, poolSmall, true, []⟩

/-- A concrete two-player global state: player 0 is playing and registered
under queue handle 100; player 1 is a fresh paused player. -/
def mst0 : MState := ⟨[⟨0, pQueued⟩, ⟨1, p0⟩], [(100, 0)], [], poolSmall⟩

/-!  ## Theorems  -/

theorem findItem_eq {l : List audioQueuePoolItem} {aq : Nat}
    {pre : List audioQueuePoolItem} {it : audioQueuePoolItem}
    {post : List audioQueuePoolItem} (h : findItem l aq = some (pre, it, post)) :
    l = pre ++ it :: post := by
  induction l generalizing pre with
  | nil => simp [findItem] at h
  | cons hd tl ih =>
    rw [findItem] at h
    by_cases hq : hd.queue = aq
    · simp [hq] at h
      obtain ⟨h1, h2, h3⟩ := h
      simp [← h1, h2, h3]
    · simp [hq] at h
      match hfi : findItem tl aq with
      | none => rw [hfi] at h; simp at h
      | some (pre1, it1, post1) =>
        rw [hfi] at h
        simp at h
        obtain ⟨h1, h2, h3⟩ := h
        subst h2 h3
        rw [← h1]
        simp [ih hfi]

theorem findItem_none {l : List audioQueuePoolItem} {aq : Nat}
    (h : ∀ it ∈ l, it.queue ≠ aq) : findItem l aq = none := by
  induction l with
  | nil => rfl
  | cons hd tl ih =>
    rw [findItem]
    have hhd : hd.queue ≠ aq := h hd (by simp)
    simp [hhd]
    rw [ih (fun it hit => h it (by simp [hit]))]

theorem residentInv_le_max {a : audioQueuePool} (h : poolResidentInv a) :
    resident a ≤ max audioQueuePoolMaxItemNum a.used.length := by
  by_cases hu : a.unused = []
  · have : resident a = a.used.length := by simp [resident, hu]
    rw [this]
    exact le_max_right _ _
  · exact le_trans (h hu) (le_max_left _ _)

theorem poolStep_inv (penv : PoolEnv) (a : audioQueuePool) (op : PoolOp)
    (h : poolResidentInv a) : poolResidentInv (poolStep penv a op) := by
  cases op with
  | get =>
    simp only [poolStep, audioQueuePool.Get]
    split
    · rename_i q rest hu
      intro hne
      have hr := h (by rw [hu]; simp)
      simp only [resident, audioQueuePoolMaxItemNum] at hr ⊢
      rw [hu] at hr
      simp at hr ⊢
      omega
    · rename_i hu
      split
      · split
        · rename_i heq
          intro hne
          simp [hu] at hne
        · rename_i heq
          intro hne
          simp [hu] at hne
      · intro hne
        simp [hu] at hne
  | put q =>
    simp only [poolStep, audioQueuePool.Put]
    split
    · exact h
    · rename_i pre it post hfi
      have hl : a.used = pre ++ it :: post := findItem_eq hfi
      split
      · rename_i hcap
        intro hne
        simp only [resident, audioQueuePoolMaxItemNum] at *
        simp at hcap ⊢
        omega
      · split
        · rename_i hcap fcalls e hfree
          intro hne
          have hr := h hne
          simp only [resident, audioQueuePoolMaxItemNum] at *
          rw [hl] at hr
          simp at hr ⊢
          omega
        · rename_i hcap fcalls hfree
          split
          · intro hne
            have hr := h hne
            simp only [resident, audioQueuePoolMaxItemNum] at *
            rw [hl] at hr
            simp at hr ⊢
            omega
          · intro hne
            have hr := h hne
            simp only [resident, audioQueuePoolMaxItemNum] at *
            rw [hl] at hr
            simp at hr ⊢
            omega

theorem freeBufs_ok (penv : PoolEnv) (hfree : ∀ n, penv.freeResults n = .noErr) :
    ∀ (bufs : List Nat) (calls : Nat), freeBufs penv bufs calls = (calls + bufs.length, none) := by
  intro bufs
  induction bufs with
  | nil => intro calls; simp [freeBufs]
  | cons b rest ih =>
    intro calls
    rw [freeBufs, hfree, ih (calls + 1)]
    simp
    omega

/-- C2 (amended): for every sequence of pool Get and Put operations the
resident item count (unused plus used) stays within
`max audioQueuePoolMaxItemNum (number of items in use)` — it can exceed
the configured maximum of 32 only via items simultaneously handed out by
Get, and whenever an idle item remains it is at most 32 — and a release
performed when the pool is at capacity tears the returned item down
instead of caching it: the item is removed from the bookkeeping and not
cached (under any environment, teardown failures included), and its
buffers are all freed (`AudioQueueFreeBuffer`, one call per buffer) and
its queue disposed (`AudioQueueDispose`, one call) when those native calls
succeed, with no error returned. -/
theorem pool_resident_bounded_and_teardown :
    (∀ (penv : PoolEnv) (a : audioQueuePool) (ops : List PoolOp), poolResidentInv a →
      poolResidentInv (poolRun penv a ops) ∧
      resident (poolRun penv a ops) ≤
        max audioQueuePoolMaxItemNum (poolRun penv a ops).used.length) ∧
    (∀ (penv : PoolEnv) (a : audioQueuePool) (q : Nat) pre it post,
      findItem a.used q = some (pre, it, post) →
      audioQueuePoolMaxItemNum ≤ a.unused.length + (pre ++ post).length →
      (audioQueuePool.Put penv a q).1.unused = a.unused ∧
      (audioQueuePool.Put penv a q).1.used = pre ++ post) ∧
    (∀ (penv : PoolEnv) (a : audioQueuePool) (q : Nat) pre it post,
      findItem a.used q = some (pre, it, post) →
      audioQueuePoolMaxItemNum ≤ a.unused.length + (pre ++ post).length →
      (∀ n, penv.freeResults n = .noErr) → (∀ n, penv.disposeResults n = .noErr) →
      (audioQueuePool.Put penv a q).1.freeCalls = a.freeCalls + it.bufs.length ∧
      (audioQueuePool.Put penv a q).1.disposeCalls = a.disposeCalls + 1 ∧
      (audioQueuePool.Put penv a q).2 = none) := by
  refine ⟨?_, ?_, ?_⟩
  · intro penv a ops h
    have hrun : poolResidentInv (poolRun penv a ops) := by
      induction ops generalizing a with
      | nil => exact h
      | cons op rest ih => exact ih _ (poolStep_inv penv a op h)
    exact ⟨hrun, residentInv_le_max hrun⟩
  · intro penv a q pre it post hfi hcap
    unfold audioQueuePool.Put
    rw [hfi]
    simp only
    have hnot : ¬ (a.unused.length + (pre ++ post).length < audioQueuePoolMaxItemNum) := by
      omega
    rw [if_neg hnot]
    split
    · simp
    · split
      · simp
      · simp
  · intro penv a q pre it post hfi hcap hfree hdisp
    unfold audioQueuePool.Put
    rw [hfi]
    simp only
    have hnot : ¬ (a.unused.length + (pre ++ post).length < audioQueuePoolMaxItemNum) := by
      omega
    rw [if_neg hnot, freeBufs_ok penv hfree it.bufs a.freeCalls]
    simp only
    rw [hdisp a.disposeCalls]
    simp

/-- C2 counterexample: from the pre-warmed pool, 33 consecutive Get calls
(33 players playing at once) leave 33 resident items, exceeding the
configured maximum of 32, so the resident count is not bounded by 32 for
every operation sequence. -/
theorem pool_resident_exceeds_max_cex :
    audioQueuePoolMaxItemNum <
      resident (poolRun penvAllOk preparedPoolA (List.replicate 33 PoolOp.get)) := by
  decide

/-- C2 witness: the invariant holds after a concrete Get on the pre-warmed
pool, and a concrete at-capacity release tears the item down instead of
caching it: it leaves the bookkeeping, both its buffers are freed, its
queue is disposed, and no error is returned. -/
theorem pool_resident_bounded_witness :
    poolResidentInv (poolRun penvAllOk preparedPoolA [PoolOp.get]) ∧
    (audioQueuePool.Put penvAllOk poolAtCap 100).1.unused = poolAtCap.unused ∧
    (audioQueuePool.Put penvAllOk poolAtCap 100).1.used = [] ∧
    (audioQueuePool.Put penvAllOk poolAtCap 100).1.freeCalls = poolAtCap.freeCalls + 2 ∧
    (audioQueuePool.Put penvAllOk poolAtCap 100).1.disposeCalls =
      poolAtCap.disposeCalls + 1 ∧
    (audioQueuePool.Put penvAllOk poolAtCap 100).2 = none := by
  refine ⟨(pool_resident_bounded_and_teardown.1 penvAllOk preparedPoolA [PoolOp.get]
    (by unfold poolResidentInv; decide)).1, ?_, ?_, ?_, ?_, ?_⟩
  · exact (pool_resident_bounded_and_teardown.2.1 penvAllOk poolAtCap 100 []
      ⟨100, [201, 202]⟩ [] (by decide) (by decide)).1
  · exact (pool_resident_bounded_and_teardown.2.1 penvAllOk poolAtCap 100 []
      ⟨100, [201, 202]⟩ [] (by decide) (by decide)).2
  · exact (pool_resident_bounded_and_teardown.2.2 penvAllOk poolAtCap 100 []
      ⟨100, [201, 202]⟩ [] (by decide) (by decide) (fun _ => rfl) (fun _ => rfl)).1
  · exact (pool_resident_bounded_and_teardown.2.2 penvAllOk poolAtCap 100 []
      ⟨100, [201, 202]⟩ [] (by decide) (by decide) (fun _ => rfl) (fun _ => rfl)).2.1
  · exact (pool_resident_bounded_and_teardown.2.2 penvAllOk poolAtCap 100 []
      ⟨100, [201, 202]⟩ [] (by decide) (by decide) (fun _ => rfl) (fun _ => rfl)).2.2

/-- C10: Put of a handle that is not in the pool's used list leaves the
pool unchanged and returns nil, so a stray or duplicate release is
silently ignored. -/
theorem Put_stray_handle_noop (penv : PoolEnv) (a : audioQueuePool) (q : Nat)
    (h : ∀ it ∈ a.used, it.queue ≠ q) :
    audioQueuePool.Put penv a q = (a, none) := by
  unfold audioQueuePool.Put
  rw [findItem_none h]

/-- C10 witness: releasing a never-acquired handle into a concrete pool is
a no-op. -/
theorem Put_stray_handle_noop_witness :
    audioQueuePool.Put penvAllOk poolSmall 999 = (poolSmall, none) :=
  Put_stray_handle_noop penvAllOk poolSmall 999 (by decide)

theorem primeLoop_siri_stalls : ∀ (n : Nat) (p : playerImpl),
    (primeLoop envSiri n p).2 = none := by
  intro n
  induction n with
  | zero => intro p; rfl
  | succ n ih =>
    intro p
    rw [primeLoop]
    exact ih _

/-- C3 counterexample: under a native service that reports the
Siri-recording busy status on every prime attempt, the prime retry loop of
`playImpl` never exits, whatever fuel it is given — the retry is
unbounded, so `playImpl` does not always return. -/
theorem prime_retry_unbounded_cex : ¬ primeLoopTerminates envSiri p0 := by
  rintro ⟨fuel, h⟩
  rw [primeLoop_siri_stalls fuel p0] at h
  simp at h

theorem primeLoop_exit_aux (env : Env) (k : Nat)
    (h : env.primeResults k ≠ .siriIsRecording) :
    ∀ (n : Nat) (p : playerImpl), p.primes + n = k → primeLoopTerminates env p := by
  intro n
  induction n with
  | zero =>
    intro p hp
    refine ⟨1, ?_⟩
    rw [primeLoop]
    rcases hst : env.primeResults p.primes with _ | _ | _ | code
    · simp
    · rw [Nat.add_zero] at hp
      rw [hp] at hst
      exact absurd hst h
    · simp
    · simp
  | succ n ih =>
    intro p hp
    rcases hst : env.primeResults p.primes with _ | _ | _ | code
    · exact ⟨1, by rw [primeLoop, hst]; simp⟩
    · have hter := ih {p with primes := p.primes + 1} (by simp; omega)
      obtain ⟨fuel, hf⟩ := hter
      refine ⟨fuel + 1, ?_⟩
      rw [primeLoop, hst]
      exact hf
    · exact ⟨1, by rw [primeLoop, hst]; simp⟩
    · exact ⟨1, by rw [primeLoop, hst]; simp⟩

/-- C3 (amended): the retry on the Siri-recording busy status is
unbounded, not bounded; the prime step of `playImpl` returns precisely
when some prime attempt at or after the current call index yields a
different status.  Whenever such an attempt exists, the retry loop
exits. -/
theorem primeLoop_terminates_of_not_always_siri (env : Env) (p : playerImpl) (k : Nat)
    (hk : p.primes ≤ k) (h : env.primeResults k ≠ .siriIsRecording) :
    primeLoopTerminates env p :=
  primeLoop_exit_aux env k h (k - p.primes) p (by omega)

/-- C3 witness: under the all-ok environment the prime loop of a fresh
player exits. -/
theorem primeLoop_terminates_witness : primeLoopTerminates envEmptySrc p0 :=
  primeLoop_terminates_of_not_always_siri envEmptySrc p0 0 (by decide) (by decide)

/-- C1 counterexample: a player fed a byte source shorter than
`maxBufferSize` (one byte, 1 < 8192) whose very first read signals
end-of-stream during Play's initial fill ends in state `play`, not
`paused`: the single byte is written into the first buffer, which
enqueues, so only one buffer stays unqueued, the two-unqueued-buffers
check fails, and the queue is primed and started. -/
theorem play_short_source_ends_playing_cex :
    (playImpl c0 envOneByte penvAllOk 2 w0).p.state ≠ playerState.paused ∧
    (playImpl c0 envOneByte penvAllOk 2 w0).p.state = playerState.play := by
  constructor
  · decide
  · decide

/-- C1 (amended): a player fed a byte source that signals end-of-stream
with zero bytes on its first read during Play's initial synchronous fill
is left in state `paused` (not `play`) by Play: no buffer enqueues, both
buffers stay unqueued, and the end-of-stream case settles back to `paused`
without priming or starting the device. -/
theorem play_empty_source_settles_paused (c : context) (env : Env) (penv : PoolEnv)
    (fuel : Nat) (s : World) (it : audioQueuePoolItem) (rest : List audioQueuePoolItem)
    (hst : s.p.state = playerState.paused) (herr : s.p.err = none)
    (hq : s.p.audioQueue = none) (hbuf : s.p.buf = [])
    (hpool : s.pool.unused = it :: rest) (hbufs : it.bufs.length = 2)
    (hread : env.readResults s.p.reads = ([], .eof))
    (hmax : 0 < c.maxBufferSize) (hfuel : 0 < fuel) :
    (playImpl c env penv fuel s).p.state = playerState.paused ∧
    (playImpl c env penv fuel s).p.primes = s.p.primes ∧
    (playImpl c env penv fuel s).p.starts = s.p.starts ∧
    (playImpl c env penv fuel s).p.eof = true ∧
    (playImpl c env penv fuel s).p.unqueuedBufs = it.bufs := by
  obtain ⟨b1, b2, hb⟩ := List.length_eq_two.mp hbufs
  obtain ⟨⟨aq, buf, ubufs, stt, err, eof, vol, reads, enq, primes, starts, pauses, stops⟩,
    pool, reg, pars⟩ := s
  simp only at hst herr hq hbuf hread ⊢
  subst hst herr hq hbuf
  obtain ⟨unused, used, fr, nc, ac, fc, dc⟩ := pool
  simp only at hpool
  subst hpool
  cases fuel with
  | zero => omega
  | succ f =>
    simp [playImpl, playAcquire, audioQueuePool.Get, fillLoop, hread, hmax, hb,
      drainBufs, appendBufferImpl]

/-- C1 witness: a concrete fresh player over a concrete pool with a source
that reports end-of-stream immediately with no bytes settles to `paused`
after Play, without priming or starting. -/
theorem play_empty_source_settles_paused_witness :
    (playImpl c0 envEmptySrc penvAllOk 1 w0).p.state = playerState.paused ∧
    (playImpl c0 envEmptySrc penvAllOk 1 w0).p.primes = w0.p.primes ∧
    (playImpl c0 envEmptySrc penvAllOk 1 w0).p.starts = w0.p.starts ∧
    (playImpl c0 envEmptySrc penvAllOk 1 w0).p.eof = true ∧
    (playImpl c0 envEmptySrc penvAllOk 1 w0).p.unqueuedBufs = [201, 202] :=
  play_empty_source_settles_paused c0 envEmptySrc penvAllOk 1 w0 ⟨100, [201, 202]⟩ []
    rfl rfl rfl rfl rfl (by decide) rfl (by decide) (by decide)

theorem closeAudioQueue_err_some (env : Env) (penv : PoolEnv) (s : World) (e : GoErr)
    (h : s.p.err = some e) :
    (closeAudioQueue env penv s).1.p.err = some e ∧ (closeAudioQueue env penv s).2 = none := by
  unfold closeAudioQueue
  cases haq : s.p.audioQueue with
  | none => simp [h]
  | some q =>
    rcases hput : audioQueuePool.Put penv s.pool q with ⟨pool1, perr⟩
    simp [h, hput]

theorem closeImpl_err_some (env : Env) (penv : PoolEnv) (s : World) (e : GoErr)
    (h : s.p.err = some e) :
    (closeImpl env penv s).1.p.err = some e ∧
    (closeImpl env penv s).1.p.state = playerState.closed ∧
    (closeImpl env penv s).2 = some e := by
  unfold closeImpl
  rcases hca : closeAudioQueue env penv s with ⟨s1, cerr⟩
  have h1 := closeAudioQueue_err_some env penv s e h
  rw [hca] at h1
  obtain ⟨he, hc⟩ := h1
  simp only at he hc
  subst hc
  simp [he]

theorem setErrorImpl_spec (env : Env) (penv : PoolEnv) (e : GoErr) (s : World) :
    (setErrorImpl env penv e s).p.err = some e ∧
    (setErrorImpl env penv e s).p.state = playerState.closed := by
  unfold setErrorImpl
  have h := closeImpl_err_some env penv {s with p := {s.p with err := some e}} e (by simp)
  exact ⟨h.1, h.2.1⟩

theorem playImpl_err_noop (c : context) (env : Env) (penv : PoolEnv) (fuel : Nat)
    (s : World) (h : s.p.err.isSome) : playImpl c env penv fuel s = s := by
  unfold playImpl
  rw [if_pos h]

theorem Pause_err_noop (env : Env) (penv : PoolEnv) (s : World) (h : s.p.err.isSome) :
    Pause env penv s = s := by
  unfold Pause
  rw [if_pos h]

theorem resetImpl_err_noop (env : Env) (penv : PoolEnv) (s : World) (h : s.p.err.isSome) :
    resetImpl env penv s = s := by
  unfold resetImpl
  rw [if_pos h]

theorem run_ppr_noop (c : context) (env : Env) (penv : PoolEnv) (s : World)
    (h : s.p.err.isSome) :
    ∀ l : List Op, (∀ o ∈ l, o.isPPR = true) → run c env penv s l = s := by
  intro l
  induction l with
  | nil => intro _; rfl
  | cons o rest ih =>
    intro hall
    have ho := hall o (by simp)
    have hstep : step c env penv s o = s := by
      cases o with
      | play fuel => exact playImpl_err_noop c env penv fuel s h
      | pause => exact Pause_err_noop env penv s h
      | reset => exact resetImpl_err_noop env penv s h
      | close => simp [Op.isPPR] at ho
      | setVolume v => simp [Op.isPPR] at ho
      | readSource => simp [Op.isPPR] at ho
      | render b => simp [Op.isPPR] at ho
    show run c env penv (step c env penv s o) rest = s
    rw [hstep]
    exact ih (fun o2 ho2 => hall o2 (by simp [ho2]))

/-- C4: the first failure is sticky.  Storing an error into a player that
had none leaves the player with exactly that error and in state `closed`
(the forced close is best-effort: this holds under every environment,
including ones whose teardown calls fail, so a secondary teardown failure
never overwrites the first error), and afterwards every sequence of Play,
Pause and Reset requests is a no-op while `Err` keeps returning that first
error. -/
theorem error_sticky_forces_close_and_noops (env : Env) (penv : PoolEnv) (e : GoErr)
    (s : World) (h : s.p.err = none) :
    (setErrorImpl env penv e s).p.err = some e ∧
    (setErrorImpl env penv e s).p.state = playerState.closed ∧
    (∀ (c : context) (env2 : Env) (penv2 : PoolEnv) (l : List Op),
      (∀ o ∈ l, o.isPPR = true) →
      run c env2 penv2 (setErrorImpl env penv e s) l = setErrorImpl env penv e s ∧
      Err (run c env2 penv2 (setErrorImpl env penv e s) l) = some e) := by
  have hs := setErrorImpl_spec env penv e s
  refine ⟨hs.1, hs.2, ?_⟩
  intro c env2 penv2 l hl
  have hrun := run_ppr_noop c env2 penv2 (setErrorImpl env penv e s)
    (by rw [hs.1]; rfl) l hl
  refine ⟨hrun, ?_⟩
  unfold Err
  rw [hrun]
  exact hs.1

/-- C4 witness: a concrete first failure stored into a fresh player sticks
and makes a concrete Play-Pause-Reset sequence a no-op. -/
theorem error_sticky_witness :
    (setErrorImpl envEmptySrc penvAllOk (GoErr.startFailed (.other 5)) w0).p.err =
      some (GoErr.startFailed (.other 5)) ∧
    (setErrorImpl envEmptySrc penvAllOk (GoErr.startFailed (.other 5)) w0).p.state =
      playerState.closed ∧
    run c0 envEmptySrc penvAllOk
      (setErrorImpl envEmptySrc penvAllOk (GoErr.startFailed (.other 5)) w0)
      [Op.play 1, Op.pause, Op.reset] =
      setErrorImpl envEmptySrc penvAllOk (GoErr.startFailed (.other 5)) w0 := by
  have h := error_sticky_forces_close_and_noops envEmptySrc penvAllOk
    (GoErr.startFailed (.other 5)) w0 rfl
  exact ⟨h.1, h.2.1,
    (h.2.2 c0 envEmptySrc penvAllOk [Op.play 1, Op.pause, Op.reset] (by decide)).1⟩

theorem appendBufferImpl_fields (c : context) (env : Env) (p : playerImpl) (b : Nat) :
    ((appendBufferImpl c env p b).1).audioQueue = p.audioQueue ∧
    ((appendBufferImpl c env p b).1).err = p.err ∧
    ((appendBufferImpl c env p b).1).state = p.state ∧
    ((appendBufferImpl c env p b).1).eof = p.eof ∧
    ((appendBufferImpl c env p b).1).volume = p.volume ∧
    ((appendBufferImpl c env p b).1).unqueuedBufs = p.unqueuedBufs := by
  obtain ⟨aq, buf, ub, stt, err, eof, vol, rd, en, pr, sta, pa, sto⟩ := p
  unfold appendBufferImpl
  split
  · simp
  · rcases hst : env.enqueueResults en with _ | _ | _ | code <;> simp [hst]

theorem drainBufs_fields (c : context) (env : Env) :
    ∀ (bufs acc : List Nat) (p : playerImpl),
    ((drainBufs c env bufs acc p).1).audioQueue = p.audioQueue ∧
    ((drainBufs c env bufs acc p).1).err = p.err ∧
    ((drainBufs c env bufs acc p).1).state = p.state ∧
    ((drainBufs c env bufs acc p).1).eof = p.eof ∧
    ((drainBufs c env bufs acc p).1).volume = p.volume := by
  intro bufs
  induction bufs with
  | nil => intro acc p; exact ⟨rfl, rfl, rfl, rfl, rfl⟩
  | cons b rest ih =>
    intro acc p
    have ha := appendBufferImpl_fields c env p b
    rw [drainBufs]
    rcases hab : appendBufferImpl c env p b with ⟨p1, r⟩
    rw [hab] at ha
    simp only at ha
    obtain ⟨h1, h2, h3, h4, h5, _⟩ := ha
    match r with
    | .error e => exact ⟨h1, h2, h3, h4, h5⟩
    | .ok true =>
      have hr := ih acc p1
      exact ⟨hr.1.trans h1, hr.2.1.trans h2, hr.2.2.1.trans h3,
        hr.2.2.2.1.trans h4, hr.2.2.2.2.trans h5⟩
    | .ok false =>
      have hr := ih (acc ++ [b]) p1
      exact ⟨hr.1.trans h1, hr.2.1.trans h2, hr.2.2.1.trans h3,
        hr.2.2.2.1.trans h4, hr.2.2.2.2.trans h5⟩

theorem fillLoop_fields (c : context) (env : Env) :
    ∀ (n : Nat) (p : playerImpl),
    ((fillLoop c env n p).1).audioQueue = p.audioQueue ∧
    ((fillLoop c env n p).1).err = p.err ∧
    ((fillLoop c env n p).1).state = p.state ∧
    ((fillLoop c env n p).1).volume = p.volume ∧
    ((fillLoop c env n p).1).unqueuedBufs = p.unqueuedBufs ∧
    (p.eof = true → ((fillLoop c env n p).1).eof = true) := by
  intro n
  induction n with
  | zero => intro p; exact ⟨rfl, rfl, rfl, rfl, rfl, fun h => h⟩
  | succ n ih =>
    intro p
    obtain ⟨aq, buf, ub, stt, err, eof, vol, rd, en, pr, sta, pa, sto⟩ := p
    rw [fillLoop]
    dsimp only
    by_cases hcond : buf.length < c.maxBufferSize
    · rw [if_pos hcond]
      rcases hr : env.readResults rd with ⟨chunk, res⟩
      rcases res with _ | _ | code
      · have hrec := ih ⟨aq, buf ++ chunk.take c.maxBufferSize, ub, stt, err, eof, vol,
          rd + 1, en, pr, sta, pa, sto⟩
        simpa [hr] using hrec
      · simp [hr]
      · simp [hr]
    · rw [if_neg hcond]
      exact ⟨rfl, rfl, rfl, rfl, rfl, fun h => h⟩

theorem primeLoop_fields (env : Env) :
    ∀ (n : Nat) (p : playerImpl),
    ((primeLoop env n p).1).audioQueue = p.audioQueue ∧
    ((primeLoop env n p).1).err = p.err ∧
    ((primeLoop env n p).1).state = p.state ∧
    ((primeLoop env n p).1).eof = p.eof ∧
    ((primeLoop env n p).1).volume = p.volume ∧
    ((primeLoop env n p).1).unqueuedBufs = p.unqueuedBufs ∧
    ((primeLoop env n p).1).buf = p.buf := by
  intro n
  induction n with
  | zero => intro p; exact ⟨rfl, rfl, rfl, rfl, rfl, rfl, rfl⟩
  | succ n ih =>
    intro p
    rw [primeLoop]
    match hst : env.primeResults p.primes with
    | .noErr => simp [hst]
    | .siriIsRecording =>
      simp only [hst]
      have hrec := ih {p with primes := p.primes + 1}
      simpa using hrec
    | .enqueueDuringReset => simp [hst]
    | .other code => simp [hst]

theorem closeAudioQueue_fields (env : Env) (penv : PoolEnv) (s : World) :
    (closeAudioQueue env penv s).1.p.eof = s.p.eof ∧
    (closeAudioQueue env penv s).1.p.buf = s.p.buf ∧
    (closeAudioQueue env penv s).1.p.state = s.p.state ∧
    (closeAudioQueue env penv s).1.p.volume = s.p.volume ∧
    (closeAudioQueue env penv s).1.p.unqueuedBufs = s.p.unqueuedBufs ∧
    (closeAudioQueue env penv s).1.params = s.params := by
  obtain ⟨⟨aq, buf, ub, stt, err, eof, vol, rd, en, pr, sta, pa, sto⟩, pool, reg, pars⟩ := s
  unfold closeAudioQueue
  dsimp only
  cases aq with
  | none => simp
  | some q =>
    rcases hput : audioQueuePool.Put penv pool q with ⟨pool1, perr⟩
    simp only [hput]
    split
    · simp
    · split <;> simp

theorem closeAudioQueue_inv (env : Env) (penv : PoolEnv) (s : World) (h : queueInv s) :
    queueInv (closeAudioQueue env penv s).1 := by
  obtain ⟨⟨aq, buf, ub, stt, err, eof, vol, rd, en, pr, sta, pa, sto⟩, pool, reg, pars⟩ := s
  unfold queueInv at h ⊢
  unfold closeAudioQueue
  dsimp only at h ⊢
  cases aq with
  | none => exact h
  | some q =>
    rcases hput : audioQueuePool.Put penv pool q with ⟨pool1, perr⟩
    simp only [hput]
    split
    · simpa using h
    · split
      · simpa using h
      · simp

theorem closeImpl_inv (env : Env) (penv : PoolEnv) (s : World) (h : queueInv s) :
    queueInv (closeImpl env penv s).1 := by
  unfold closeImpl
  rcases hca : closeAudioQueue env penv s with ⟨s1, cerr⟩
  have h1 := closeAudioQueue_inv env penv s h
  rw [hca] at h1
  simp only at h1
  unfold queueInv at h1 ⊢
  dsimp only
  split <;> simpa using h1

theorem setErrorImpl_inv (env : Env) (penv : PoolEnv) (e : GoErr) (s : World)
    (h : queueInv s) : queueInv (setErrorImpl env penv e s) := by
  unfold setErrorImpl
  exact closeImpl_inv env penv _ (by unfold queueInv at h ⊢; simpa using h)

theorem queueInv_setP (s : World) (p1 : playerImpl) (h : queueInv s)
    (haq : p1.audioQueue = s.p.audioQueue) : queueInv {s with p := p1} := by
  unfold queueInv at h ⊢
  simpa [haq] using h

theorem playAcquire_inv (penv : PoolEnv) (s : World) (h : queueInv s) :
    queueInv (playAcquire penv s).1 := by
  unfold playAcquire
  cases haq : s.p.audioQueue with
  | some q => exact h
  | none =>
    rcases hget : audioQueuePool.Get penv s.pool with ⟨pool1, r⟩
    simp only [hget]
    match r with
    | .error e =>
      unfold queueInv at h ⊢
      simpa [haq] using h
    | .ok (q, bufs) =>
      unfold queueInv
      simp

theorem playImpl_inv (c : context) (env : Env) (penv : PoolEnv) (fuel : Nat)
    (s : World) (h : queueInv s) : queueInv (playImpl c env penv fuel s) := by
  unfold playImpl
  split
  · exact h
  · split
    · exact h
    · rcases hacq : playAcquire penv s with ⟨s1, oerr⟩
      have h1 := playAcquire_inv penv s h
      rw [hacq] at h1
      simp only at h1
      cases oerr with
      | some e => exact setErrorImpl_inv env penv e s1 h1
      | none =>
        dsimp only
        rcases hfill : fillLoop c env fuel s1.p with ⟨p1, fres⟩
        have hfa := (fillLoop_fields c env fuel s1.p).1
        rw [hfill] at hfa
        simp only at hfa
        cases fres with
        | none => exact queueInv_setP s1 p1 h1 hfa
        | some le =>
          cases le with
          | fail e => exact setErrorImpl_inv env penv e _ (queueInv_setP s1 p1 h1 hfa)
          | ok =>
            dsimp only
            rcases hdr : drainBufs c env p1.unqueuedBufs [] p1 with ⟨p2, dres⟩
            have hda := (drainBufs_fields c env p1.unqueuedBufs [] p1).1
            rw [hdr] at hda
            simp only at hda
            cases dres with
            | error e =>
              exact setErrorImpl_inv env penv e _ (queueInv_setP s1 p2 h1 (hda.trans hfa))
            | ok unenq =>
              dsimp only
              split
              · exact queueInv_setP s1 _ h1 (hda.trans hfa)
              · rcases hpr : primeLoop env fuel {p2 with unqueuedBufs := unenq}
                  with ⟨p4, pres⟩
                have hpa := (primeLoop_fields env fuel {p2 with unqueuedBufs := unenq}).1
                rw [hpr] at hpa
                simp only at hpa
                have hpa2 : p4.audioQueue = s1.p.audioQueue := by
                  rw [hpa]
                  simpa using hda.trans hfa
                cases pres with
                | none => exact queueInv_setP s1 p4 h1 hpa2
                | some le2 =>
                  cases le2 with
                  | fail e =>
                    exact setErrorImpl_inv env penv e _ (queueInv_setP s1 p4 h1 hpa2)
                  | ok =>
                    dsimp only
                    split
                    · exact setErrorImpl_inv env penv _ _ (queueInv_setP s1 _ h1 hpa2)
                    · exact queueInv_setP s1 _ h1 hpa2

theorem Pause_inv (env : Env) (penv : PoolEnv) (s : World) (h : queueInv s) :
    queueInv (Pause env penv s) := by
  unfold Pause
  split
  · exact h
  · split
    · exact h
    · split
      · exact h
      · dsimp only
        split
        · exact setErrorImpl_inv env penv _ _ (queueInv_setP s _ h rfl)
        · exact queueInv_setP s _ h rfl

theorem resetImpl_inv (env : Env) (penv : PoolEnv) (s : World) (h : queueInv s) :
    queueInv (resetImpl env penv s) := by
  unfold resetImpl
  split
  · exact h
  · split
    · exact h
    · split
      · exact h
      · rcases hca : closeAudioQueue env penv s with ⟨s1, cerr⟩
        have h1 := closeAudioQueue_inv env penv s h
        rw [hca] at h1
        simp only at h1
        cases cerr with
        | some e => exact setErrorImpl_inv env penv e s1 h1
        | none => exact queueInv_setP s1 _ h1 rfl

theorem SetVolume_inv (v : ℚ) (s : World) (h : queueInv s) :
    queueInv (SetVolume v s) := by
  unfold SetVolume
  dsimp only
  cases haq : s.p.audioQueue with
  | none => exact queueInv_setP s _ h (by simp [haq])
  | some q =>
    unfold queueInv at h ⊢
    simpa [haq] using h

theorem readSourceToBuffer_inv (c : context) (env : Env) (penv : PoolEnv) (s : World)
    (h : queueInv s) : queueInv (readSourceToBuffer c env penv s) := by
  unfold readSourceToBuffer
  split
  · exact h
  · split
    · exact h
    · split
      · exact h
      · dsimp only
        rcases hr : env.readResults s.p.reads with ⟨chunk, res⟩
        cases res with
        | err code => exact setErrorImpl_inv env penv _ _ (queueInv_setP s _ h rfl)
        | ok =>
          dsimp only
          split
          · exact queueInv_setP s _ h rfl
          · exact queueInv_setP s _ h rfl
        | eof =>
          dsimp only
          split
          · exact queueInv_setP s _ h rfl
          · exact queueInv_setP s _ h rfl

theorem render_inv (c : context) (env : Env) (penv : PoolEnv) (s : World) (b : Nat)
    (h : queueInv s) : queueInv (ebiten_readerdriver_render c env penv s b) := by
  unfold ebiten_readerdriver_render
  split
  · exact h
  · rcases hab : appendBufferImpl c env s.p b with ⟨p1, r⟩
    have ha := (appendBufferImpl_fields c env s.p b).1
    rw [hab] at ha
    simp only at ha
    cases r with
    | error e => exact setErrorImpl_inv env penv e _ (queueInv_setP s p1 h ha)
    | ok queued =>
      cases queued with
      | true => exact queueInv_setP s p1 h ha
      | false =>
        dsimp only
        split
        · exact resetImpl_inv env penv _ (queueInv_setP s _ h ha)
        · exact queueInv_setP s _ h ha

theorem step_inv (c : context) (env : Env) (penv : PoolEnv) (s : World) (op : Op)
    (h : queueInv s) : queueInv (step c env penv s op) := by
  cases op with
  | play fuel => exact playImpl_inv c env penv fuel s h
  | pause => exact Pause_inv env penv s h
  | reset => exact resetImpl_inv env penv s h
  | close => exact closeImpl_inv env penv s h
  | setVolume v => exact SetVolume_inv v s h
  | readSource => exact readSourceToBuffer_inv c env penv s h
  | render b => exact render_inv c env penv s b h

/-- C5: the registration invariant is preserved by every reachable
transition: for every state in which the player holds a queue handle
exactly when it is registered (in particular the fresh-player state), any
sequence of Play, Pause, Reset, Close, SetVolume, scheduler-refill and
completion-callback operations preserves that equivalence — Play's
acquisition registers the player together with storing the handle, and
every release unregisters it together with clearing the handle. -/
theorem queue_handle_iff_registered (c : context) (env : Env) (penv : PoolEnv)
    (s : World) (h : queueInv s) (ops : List Op) : queueInv (run c env penv s ops) := by
  induction ops generalizing s with
  | nil => exact h
  | cons op rest ih => exact ih (step c env penv s op) (step_inv c env penv s op h)

/-- C5 witness: a concrete fresh player keeps the invariant through a
concrete Play-Reset-Close sequence. -/
theorem queue_handle_iff_registered_witness :
    queueInv (run c0 envEmptySrc penvAllOk w0 [Op.play 2, Op.reset, Op.close]) :=
  queue_handle_iff_registered c0 envEmptySrc penvAllOk w0 (by unfold queueInv; decide)
    [Op.play 2, Op.reset, Op.close]

theorem closeImpl_eof (env : Env) (penv : PoolEnv) (s : World) :
    (closeImpl env penv s).1.p.eof = s.p.eof := by
  unfold closeImpl
  rcases hca : closeAudioQueue env penv s with ⟨s1, cerr⟩
  have h := (closeAudioQueue_fields env penv s).1
  rw [hca] at h
  simp only at h
  dsimp only
  split <;> simpa using h

theorem setErrorImpl_eof (env : Env) (penv : PoolEnv) (e : GoErr) (s : World) :
    (setErrorImpl env penv e s).p.eof = s.p.eof := by
  unfold setErrorImpl
  exact closeImpl_eof env penv _

theorem playAcquire_eof (penv : PoolEnv) (s : World) :
    (playAcquire penv s).1.p.eof = s.p.eof := by
  unfold playAcquire
  cases haq : s.p.audioQueue with
  | some q => rfl
  | none =>
    rcases hget : audioQueuePool.Get penv s.pool with ⟨pool1, r⟩
    cases r with
    | error e => simp
    | ok v =>
      rcases v with ⟨q, bufs⟩
      simp

theorem playImpl_eof (c : context) (env : Env) (penv : PoolEnv) (fuel : Nat)
    (s : World) (h : s.p.eof = true) : (playImpl c env penv fuel s).p.eof = true := by
  unfold playImpl
  split
  · exact h
  · split
    · exact h
    · rcases hacq : playAcquire penv s with ⟨s1, oerr⟩
      have h1 : s1.p.eof = true := by
        have := playAcquire_eof penv s
        rw [hacq] at this
        simp only at this
        rw [this]
        exact h
      cases oerr with
      | some e => exact (setErrorImpl_eof env penv e s1).trans h1
      | none =>
        dsimp only
        rcases hfill : fillLoop c env fuel s1.p with ⟨p1, fres⟩
        have hfe : p1.eof = true := by
          have := (fillLoop_fields c env fuel s1.p).2.2.2.2.2
          rw [hfill] at this
          exact this h1
        cases fres with
        | none => exact hfe
        | some le =>
          cases le with
          | fail e => exact (setErrorImpl_eof env penv e _).trans hfe
          | ok =>
            dsimp only
            rcases hdr : drainBufs c env p1.unqueuedBufs [] p1 with ⟨p2, dres⟩
            have hde : p2.eof = true := by
              have := (drainBufs_fields c env p1.unqueuedBufs [] p1).2.2.2.1
              rw [hdr] at this
              simp only at this
              exact this.trans hfe
            cases dres with
            | error e => exact (setErrorImpl_eof env penv e _).trans hde
            | ok unenq =>
              dsimp only
              split
              · exact hde
              · rcases hpr : primeLoop env fuel {p2 with unqueuedBufs := unenq}
                  with ⟨p4, pres⟩
                have hpe : p4.eof = true := by
                  have := (primeLoop_fields env fuel {p2 with unqueuedBufs := unenq}).2.2.2.1
                  rw [hpr] at this
                  simp only at this
                  rw [this]
                  exact hde
                cases pres with
                | none => exact hpe
                | some le2 =>
                  cases le2 with
                  | fail e => exact (setErrorImpl_eof env penv e _).trans hpe
                  | ok =>
                    dsimp only
                    split
                    · exact (setErrorImpl_eof env penv _ _).trans hpe
                    · exact hpe

theorem Pause_eof (env : Env) (penv : PoolEnv) (s : World) (h : s.p.eof = true) :
    (Pause env penv s).p.eof = true := by
  unfold Pause
  split
  · exact h
  · split
    · exact h
    · split
      · exact h
      · dsimp only
        split
        · exact (setErrorImpl_eof env penv _ _).trans h
        · exact h

theorem readSourceToBuffer_eof (c : context) (env : Env) (penv : PoolEnv) (s : World)
    (h : s.p.eof = true) : (readSourceToBuffer c env penv s).p.eof = true := by
  unfold readSourceToBuffer
  split
  · exact h
  · split
    · exact h
    · split
      · exact h
      · dsimp only
        rcases hr : env.readResults s.p.reads with ⟨chunk, res⟩
        cases res with
        | err code => exact (setErrorImpl_eof env penv _ _).trans h
        | ok =>
          dsimp only
          split
          · rfl
          · exact h
        | eof =>
          dsimp only
          split
          · rfl
          · exact h

theorem SetVolume_eof (v : ℚ) (s : World) : (SetVolume v s).p.eof = s.p.eof := by
  unfold SetVolume
  dsimp only
  cases haq : s.p.audioQueue <;> rfl

theorem Put_none_err (penv : PoolEnv) (a : audioQueuePool) (q : Nat)
    (hfree : ∀ n, penv.freeResults n = .noErr)
    (hdisp : ∀ n, penv.disposeResults n = .noErr) :
    (audioQueuePool.Put penv a q).2 = none := by
  unfold audioQueuePool.Put
  split
  · rfl
  · rename_i pre it post hfi
    dsimp only
    split
    · rfl
    · rw [freeBufs_ok penv hfree it.bufs a.freeCalls]
      dsimp only
      rw [hdisp]
      simp

theorem closeAudioQueue_ok (env : Env) (penv : PoolEnv) (s : World) (q : Nat)
    (haq : s.p.audioQueue = some q)
    (hstop : env.stopResults s.p.stops = .noErr)
    (hput : (audioQueuePool.Put penv s.pool q).2 = none) :
    closeAudioQueue env penv s =
      ({s with
          pool := (audioQueuePool.Put penv s.pool q).1,
          registered := false,
          p := {s.p with stops := s.p.stops + 1, audioQueue := none}}, none) := by
  unfold closeAudioQueue
  rw [haq]
  dsimp only
  rw [hstop, if_neg (by simp)]
  rcases hp : audioQueuePool.Put penv s.pool q with ⟨pool1, perr⟩
  rw [hp] at hput
  simp only at hput
  subst hput
  simp

theorem resetImpl_clears (env : Env) (penv : PoolEnv) (s : World) (q : Nat)
    (herr : s.p.err = none) (hstate : s.p.state ≠ playerState.closed)
    (haq : s.p.audioQueue = some q)
    (hstop : env.stopResults s.p.stops = .noErr)
    (hfree : ∀ n, penv.freeResults n = .noErr)
    (hdisp : ∀ n, penv.disposeResults n = .noErr) :
    (resetImpl env penv s).p.eof = false ∧ (resetImpl env penv s).p.buf = [] ∧
    (resetImpl env penv s).p.state = playerState.paused := by
  unfold resetImpl
  rw [if_neg (by simp [herr]), if_neg hstate, if_neg (by simp [haq]),
    closeAudioQueue_ok env penv s q haq hstop (Put_none_err penv s.pool q hfree hdisp)]
  simp

/-- C7: the end-of-stream flag is sticky: every explicit operation other
than Reset (Play, Pause, Close, SetVolume, and the scheduler's refill)
preserves a set flag; and Reset, on a player that holds a queue, is not
closed and has no error (with the native stop and pool release
succeeding), clears the flag together with the backlog and returns the
player to Paused. -/
theorem eof_sticky_and_reset_clears :
    (∀ (c : context) (env : Env) (penv : PoolEnv) (s : World) (o : Op),
      o.isNonReset = true → s.p.eof = true → (step c env penv s o).p.eof = true) ∧
    (∀ (env : Env) (penv : PoolEnv) (s : World) (q : Nat), s.p.err = none →
      s.p.state ≠ playerState.closed → s.p.audioQueue = some q →
      env.stopResults s.p.stops = OSStatus.noErr →
      (∀ n, penv.freeResults n = OSStatus.noErr) →
      (∀ n, penv.disposeResults n = OSStatus.noErr) →
      (resetImpl env penv s).p.eof = false ∧ (resetImpl env penv s).p.buf = [] ∧
      (resetImpl env penv s).p.state = playerState.paused) := by
  constructor
  · intro c env penv s o ho h
    cases o with
    | play fuel => exact playImpl_eof c env penv fuel s h
    | pause => exact Pause_eof env penv s h
    | close => exact (closeImpl_eof env penv s).trans h
    | setVolume v => exact (SetVolume_eof v s).trans h
    | readSource => exact readSourceToBuffer_eof c env penv s h
    | reset => simp [Op.isNonReset] at ho
    | render b => simp [Op.isNonReset] at ho
  · intro env penv s q herr hstate haq hstop hfree hdisp
    exact resetImpl_clears env penv s q herr hstate haq hstop hfree hdisp

/-- C7 witness: Pause keeps a set end-of-stream flag on a concrete player,
and Reset on a concrete queue-holding player clears the flag and the
backlog and returns it to Paused. -/
theorem eof_sticky_witness :
    (step c0 envEmptySrc penvAllOk wEof Op.pause).p.eof = true ∧
    (resetImpl envEmptySrc penvAllOk wQueued).p.eof = false ∧
    (resetImpl envEmptySrc penvAllOk wQueued).p.buf = [] ∧
    (resetImpl envEmptySrc penvAllOk wQueued).p.state = playerState.paused := by
  refine ⟨eof_sticky_and_reset_clears.1 c0 envEmptySrc penvAllOk wEof Op.pause rfl rfl,
    ?_, ?_, ?_⟩
  · exact (eof_sticky_and_reset_clears.2 envEmptySrc penvAllOk wQueued 100 rfl (by decide)
      rfl rfl (fun _ => rfl) (fun _ => rfl)).1
  · exact (eof_sticky_and_reset_clears.2 envEmptySrc penvAllOk wQueued 100 rfl (by decide)
      rfl rfl (fun _ => rfl) (fun _ => rfl)).2.1
  · exact (eof_sticky_and_reset_clears.2 envEmptySrc penvAllOk wQueued 100 rfl (by decide)
      rfl rfl (fun _ => rfl) (fun _ => rfl)).2.2

theorem closeImpl_params (env : Env) (penv : PoolEnv) (s : World) :
    (closeImpl env penv s).1.params = s.params := by
  unfold closeImpl
  rcases hca : closeAudioQueue env penv s with ⟨s1, cerr⟩
  have h := (closeAudioQueue_fields env penv s).2.2.2.2.2
  rw [hca] at h
  simp only at h
  dsimp only
  split <;> simpa using h

theorem setErrorImpl_params (env : Env) (penv : PoolEnv) (e : GoErr) (s : World) :
    (setErrorImpl env penv e s).params = s.params := by
  unfold setErrorImpl
  exact closeImpl_params env penv _

theorem playImpl_params (c : context) (env : Env) (penv : PoolEnv) (fuel : Nat)
    (s : World) (herr : s.p.err = none) (hst : s.p.state = playerState.paused) :
    (playImpl c env penv fuel s).params = (playAcquire penv s).1.params := by
  unfold playImpl
  rw [if_neg (by simp [herr]), if_neg (by simp [hst])]
  rcases hacq : playAcquire penv s with ⟨s1, oerr⟩
  cases oerr with
  | some e => exact setErrorImpl_params env penv e s1
  | none =>
    dsimp only
    rcases hfill : fillLoop c env fuel s1.p with ⟨p1, fres⟩
    cases fres with
    | none => rfl
    | some le =>
      cases le with
      | fail e => exact setErrorImpl_params env penv e _
      | ok =>
        dsimp only
        rcases hdr : drainBufs c env p1.unqueuedBufs [] p1 with ⟨p2, dres⟩
        cases dres with
        | error e => exact setErrorImpl_params env penv e _
        | ok unenq =>
          dsimp only
          split
          · rfl
          · rcases hpr : primeLoop env fuel {p2 with unqueuedBufs := unenq} with ⟨p4, pres⟩
            cases pres with
            | none => rfl
            | some le2 =>
              cases le2 with
              | fail e => exact setErrorImpl_params env penv e _
              | ok =>
                dsimp only
                split
                · exact setErrorImpl_params env penv _ _
                · rfl

/-- C8: SetVolume stores its argument exactly (no clamping to the unit
interval — this holds for every rational volume, including values outside
[0,1]), Volume then returns it, and a Play that acquires a queue from the
pool applies the cached volume to the newly acquired queue, so a volume
set before the first Play survives the acquire boundary. -/
theorem setVolume_stored_exactly_and_applied_on_acquire (c : context) (env : Env)
    (penv : PoolEnv) (fuel : Nat) (v : ℚ) (s : World) (it : audioQueuePoolItem)
    (rest : List audioQueuePoolItem) (herr : s.p.err = none)
    (hst : s.p.state = playerState.paused) (hq : s.p.audioQueue = none)
    (hpool : s.pool.unused = it :: rest) :
    (SetVolume v s).p.volume = v ∧ Volume (SetVolume v s) = v ∧
    (playImpl c env penv fuel (SetVolume v s)).params = s.params ++ [(it.queue, v)] := by
  have hsv : SetVolume v s = {s with p := {s.p with volume := v}} := by
    unfold SetVolume
    dsimp only
    rw [hq]
  refine ⟨by rw [hsv], by unfold Volume; rw [hsv], ?_⟩
  rw [hsv, playImpl_params c env penv fuel _ (by simpa using herr) (by simpa using hst)]
  unfold playAcquire
  dsimp only
  rw [hq]
  unfold audioQueuePool.Get
  dsimp only
  rw [hpool]

/-- C8 witness: volume 5/2 (outside [0,1]) set on a concrete fresh player
is stored and returned exactly, and Play applies it to the freshly
acquired queue handle 100. -/
theorem setVolume_stored_exactly_witness :
    (SetVolume ((5 : ℚ)/2) w0).p.volume = (5 : ℚ)/2 ∧
    Volume (SetVolume ((5 : ℚ)/2) w0) = (5 : ℚ)/2 ∧
    (playImpl c0 envEmptySrc penvAllOk 1 (SetVolume ((5 : ℚ)/2) w0)).params =
      w0.params ++ [(100, (5 : ℚ)/2)] :=
  setVolume_stored_exactly_and_applied_on_acquire c0 envEmptySrc penvAllOk 1
    ((5 : ℚ)/2) w0 ⟨100, [201, 202]⟩ [] rfl rfl rfl rfl

theorem closeImpl_snd (env : Env) (penv : PoolEnv) (s : World) :
    (closeImpl env penv s).2 = (closeImpl env penv s).1.p.err := by
  unfold closeImpl
  rcases hca : closeAudioQueue env penv s with ⟨s1, cerr⟩
  rfl

theorem World_state_closed_update (s : World) (h : s.p.state = playerState.closed) :
    ({s with p := {s.p with state := playerState.closed}} : World) = s := by
  obtain ⟨⟨aq, buf, ub, stt, err, eof, vol, rd, en, pr, sta, pa, sto⟩, pool, reg, pars⟩ := s
  simp only at h
  subst h
  rfl

/-- C9: Close is idempotent.  After one Close (whose native stop and pool
release succeed), the queue handle is null and the state is Closed, so a
second Close performs no teardown and returns the identical state and the
identical stored error — pool resources are not released or torn down
again. -/
theorem close_idempotent (env : Env) (penv : PoolEnv) (s : World)
    (hstop : env.stopResults s.p.stops = .noErr)
    (hfree : ∀ n, penv.freeResults n = .noErr)
    (hdisp : ∀ n, penv.disposeResults n = .noErr) :
    closeImpl env penv (closeImpl env penv s).1 = closeImpl env penv s := by
  have haq1 : (closeImpl env penv s).1.p.audioQueue = none := by
    unfold closeImpl
    cases haq : s.p.audioQueue with
    | none =>
      have hca : closeAudioQueue env penv s = (s, none) := by
        unfold closeAudioQueue
        rw [haq]
      rw [hca]
      dsimp only
      rw [if_neg (by simp)]
      exact haq
    | some q =>
      have hca := closeAudioQueue_ok env penv s q haq hstop
        (Put_none_err penv s.pool q hfree hdisp)
      rw [hca]
      dsimp only
      rw [if_neg (by simp)]
  have hst1 : (closeImpl env penv s).1.p.state = playerState.closed := by
    unfold closeImpl
    rcases hca : closeAudioQueue env penv s with ⟨s1, cerr⟩
    rfl
  have hca2 : closeAudioQueue env penv (closeImpl env penv s).1 =
      ((closeImpl env penv s).1, none) := by
    unfold closeAudioQueue
    rw [haq1]
  have key : closeImpl env penv (closeImpl env penv s).1 =
      ((closeImpl env penv s).1, (closeImpl env penv s).1.p.err) := by
    conv_lhs => rw [closeImpl]
    rw [hca2]
    dsimp only
    rw [if_neg (by simp)]
    rw [World_state_closed_update _ hst1]
  rw [key]
  exact Prod.ext rfl (closeImpl_snd env penv s).symm

/-- C9 witness: closing a concrete playing player twice yields the same
terminal state and error as closing it once. -/
theorem close_idempotent_witness :
    closeImpl envEmptySrc penvAllOk (closeImpl envEmptySrc penvAllOk wQueued).1 =
      closeImpl envEmptySrc penvAllOk wQueued :=
  close_idempotent envEmptySrc penvAllOk wQueued rfl (fun _ => rfl) (fun _ => rfl)

theorem setPl_setPl (st : MState) (pid : Nat) (a b : playerImpl) :
    setPl (setPl st pid a) pid b = setPl st pid b := by
  unfold setPl
  simp only [List.map_map]
  have hfun : ((fun m => if m.pid = pid then (⟨m.pid, b⟩ : MPlayer) else m) ∘
      fun m => if m.pid = pid then (⟨m.pid, a⟩ : MPlayer) else m) =
      fun m => if m.pid = pid then (⟨m.pid, b⟩ : MPlayer) else m := by
    funext m
    by_cases h : m.pid = pid <;> simp [Function.comp, h]
  rw [hfun]

theorem find?_map_pid (ps : playerImpl) (pid x : Nat) :
    ∀ l : List MPlayer,
      ((l.map (fun m => if m.pid = pid then (⟨m.pid, ps⟩ : MPlayer) else m)).find?
        (fun m => m.pid = x)) =
      (l.find? (fun m => m.pid = x)).map
        (fun m => if m.pid = pid then (⟨m.pid, ps⟩ : MPlayer) else m) := by
  intro l
  induction l with
  | nil => rfl
  | cons hd tl ih =>
    have hpid : (if hd.pid = pid then (⟨hd.pid, ps⟩ : MPlayer) else hd).pid = hd.pid := by
      split <;> rfl
    by_cases hmatch : hd.pid = x
    · rw [List.map_cons, List.find?_cons_of_pos _ (by rw [hpid]; simp [hmatch]),
        List.find?_cons_of_pos _ (by simp [hmatch])]
      simp
    · rw [List.map_cons, List.find?_cons_of_neg _ (by rw [hpid]; simp [hmatch]),
        List.find?_cons_of_neg _ (by simp [hmatch])]
      exact ih

theorem getPl_setPl_self (st : MState) (pid : Nat) (ps p : playerImpl)
    (h : getPl st pid = some p) : getPl (setPl st pid ps) pid = some ps := by
  unfold getPl at h ⊢
  unfold setPl
  dsimp only
  rw [find?_map_pid]
  rcases hf : st.pls.find? (fun m => m.pid = pid) with _ | m
  · rw [hf] at h; simp at h
  · have hm : m.pid = pid := by
      have := List.find?_some hf
      simpa using this
    rw [hf]
    simp [hm]

theorem getPl_setPl_ne (st : MState) (pid x : Nat) (ps : playerImpl) (hne : x ≠ pid) :
    getPl (setPl st pid ps) x = getPl st x := by
  unfold getPl setPl
  dsimp only
  rw [find?_map_pid]
  rcases hf : st.pls.find? (fun m => m.pid = x) with _ | m
  · rw [hf]
    simp
  · have hm : m.pid = x := by
      have := List.find?_some hf
      simpa using this
    have hmp : ¬ m.pid = pid := by rw [hm]; exact hne
    rw [hf]
    simp [hmp]

theorem getPl_mem (st : MState) (pid : Nat) (p : playerImpl) (h : getPl st pid = some p) :
    ∃ m ∈ st.pls, m.ps = p := by
  unfold getPl at h
  rcases hf : st.pls.find? (fun m => m.pid = pid) with _ | m
  · rw [hf] at h
    simp at h
  · rw [hf] at h
    simp at h
    exact ⟨m, List.mem_of_find?_eq_some hf, h⟩

theorem setPl_errs (st : MState) (pid : Nat) (ps : playerImpl)
    (herrs : ∀ m ∈ st.pls, m.ps.err = none) (hps : ps.err = none) :
    ∀ m ∈ (setPl st pid ps).pls, m.ps.err = none := by
  intro m hm
  unfold setPl at hm
  simp only [List.mem_map] at hm
  obtain ⟨m0, hm0, heq⟩ := hm
  subst heq
  by_cases h : m0.pid = pid <;> simp [h, hps, herrs m0 hm0]

theorem setPl_pids (st : MState) (pid : Nat) (ps : playerImpl) :
    (setPl st pid ps).pls.map MPlayer.pid = st.pls.map MPlayer.pid := by
  unfold setPl
  simp only [List.map_map]
  have hfun : (MPlayer.pid ∘ fun m => if m.pid = pid then (⟨m.pid, ps⟩ : MPlayer) else m) =
      MPlayer.pid := by
    funext m
    by_cases h : m.pid = pid <;> simp [Function.comp, h]
  rw [hfun]

theorem appendBufferImpl_no_error (c : context) (env : Env) (p : playerImpl) (b : Nat)
    (henq : ∀ n, env.enqueueResults n = .noErr) :
    ∀ e, (appendBufferImpl c env p b).2 ≠ .error e := by
  intro e
  unfold appendBufferImpl
  split
  · simp
  · rw [henq p.enqueues]
    simp

theorem fillLoop_no_fail (c : context) (env : Env)
    (hread : ∀ n code, (env.readResults n).2 ≠ .err code) :
    ∀ (fuel : Nat) (p : playerImpl) (e : GoErr),
      (fillLoop c env fuel p).2 ≠ some (.fail e) := by
  intro fuel
  induction fuel with
  | zero => intro p e; simp [fillLoop]
  | succ n ih =>
    intro p e
    rw [fillLoop]
    by_cases hcond : p.buf.length < c.maxBufferSize
    · rw [if_pos hcond]
      rcases hr : env.readResults p.reads with ⟨chunk, res⟩
      cases res with
      | err code2 => exact absurd (by rw [hr]) (hread p.reads code2)
      | ok =>
        dsimp only
        exact ih _ e
      | eof => simp
    · rw [if_neg hcond]
      simp

theorem drainBufs_no_error (c : context) (env : Env)
    (henq : ∀ n, env.enqueueResults n = .noErr) :
    ∀ (bufs acc : List Nat) (p : playerImpl) (e : GoErr),
      (drainBufs c env bufs acc p).2 ≠ .error e := by
  intro bufs
  induction bufs with
  | nil => intro acc p e; simp [drainBufs]
  | cons b rest ih =>
    intro acc p e
    rw [drainBufs]
    rcases hab : appendBufferImpl c env p b with ⟨p1, r⟩
    cases r with
    | error e2 =>
      have := appendBufferImpl_no_error c env p b henq e2
      rw [hab] at this
      exact absurd rfl this
    | ok queued =>
      cases queued with
      | true => exact ih acc p1 e
      | false => exact ih (acc ++ [b]) p1 e

theorem primeLoop_no_fail (env : Env) (hprime : ∀ n, env.primeResults n = .noErr) :
    ∀ (fuel : Nat) (p : playerImpl) (e : GoErr),
      (primeLoop env fuel p).2 ≠ some (.fail e) := by
  intro fuel p e
  cases fuel with
  | zero => simp [primeLoop]
  | succ n =>
    rw [primeLoop]
    rw [hprime]
    simp

theorem Get_ok_of_good (penv : PoolEnv) (a : audioQueuePool) (hgp : goodPenv penv) :
    ∃ pool1 q bufs, audioQueuePool.Get penv a = (pool1, .ok (q, bufs)) := by
  unfold audioQueuePool.Get
  cases hu : a.unused with
  | cons it rest => exact ⟨_, _, _, rfl⟩
  | nil =>
    rw [hgp.1 a.newCalls]
    dsimp only
    have hal : ∀ calls h, allocBufs penv 2 calls h [] = (calls + 1 + 1, .ok [h, h + 1]) := by
      intro calls h
      rw [allocBufs, hgp.2.1, allocBufs, hgp.2.1, allocBufs]
      simp
    rw [hal]
    exact ⟨_, _, _, rfl⟩

theorem playMCore_good (c : context) (env : Env) (penv : PoolEnv) (fuel : Nat)
    (st1 : MState) (pid : Nat)
    (henq : ∀ n, env.enqueueResults n = .noErr)
    (hprime : ∀ n, env.primeResults n = .noErr)
    (hstart : ∀ n, env.startResults n = .noErr)
    (hread : ∀ n code, (env.readResults n).2 ≠ .err code)
    (herrs : ∀ m ∈ st1.pls, m.ps.err = none) :
    (playMCore c env penv fuel st1 pid).toResume = st1.toResume ∧
    (∀ m ∈ (playMCore c env penv fuel st1 pid).pls, m.ps.err = none) ∧
    (playMCore c env penv fuel st1 pid).pls.map MPlayer.pid = st1.pls.map MPlayer.pid := by
  unfold playMCore
  rcases hg : getPl st1 pid with _ | q1
  · exact ⟨rfl, herrs, rfl⟩
  · have hq1 : q1.err = none := by
      obtain ⟨m, hm, hmp⟩ := getPl_mem st1 pid q1 hg
      exact hmp ▸ herrs m hm
    dsimp only
    rcases hfill : fillLoop c env fuel q1 with ⟨p1, fres⟩
    have hp1 : p1.err = none := by
      have hx := (fillLoop_fields c env fuel q1).2.1
      rw [hfill] at hx
      simp only at hx
      exact hx.trans hq1
    cases fres with
    | none => exact ⟨rfl, setPl_errs st1 pid p1 herrs hp1, setPl_pids st1 pid p1⟩
    | some le =>
      cases le with
      | fail e =>
        have hx := fillLoop_no_fail c env hread fuel q1 e
        rw [hfill] at hx
        exact absurd rfl hx
      | ok =>
        dsimp only
        rcases hdr : drainBufs c env p1.unqueuedBufs [] p1 with ⟨p2, dres⟩
        have hp2 : p2.err = none := by
          have hx := (drainBufs_fields c env p1.unqueuedBufs [] p1).2.1
          rw [hdr] at hx
          simp only at hx
          exact hx.trans hp1
        cases dres with
        | error e =>
          have hx := drainBufs_no_error c env henq p1.unqueuedBufs [] p1 e
          rw [hdr] at hx
          exact absurd rfl hx
        | ok unenq =>
          dsimp only
          split
          · exact ⟨rfl, setPl_errs st1 pid _ herrs hp2, setPl_pids st1 pid _⟩
          · rcases hpr : primeLoop env fuel {p2 with unqueuedBufs := unenq} with ⟨p4, pres⟩
            have hp4 : p4.err = none := by
              have hx := (primeLoop_fields env fuel {p2 with unqueuedBufs := unenq}).2.1
              rw [hpr] at hx
              simp only at hx
              rw [hx]
              exact hp2
            cases pres with
            | none => exact ⟨rfl, setPl_errs st1 pid p4 herrs hp4, setPl_pids st1 pid p4⟩
            | some le2 =>
              cases le2 with
              | fail e =>
                have hx := primeLoop_no_fail env hprime fuel
                  {p2 with unqueuedBufs := unenq} e
                rw [hpr] at hx
                exact absurd rfl hx
              | ok =>
                dsimp only
                rw [hstart p4.starts, if_neg (by simp)]
                exact ⟨rfl, setPl_errs st1 pid _ herrs hp4, setPl_pids st1 pid _⟩

theorem playM_good (c : context) (env : Env) (penv : PoolEnv) (fuel : Nat) (st : MState)
    (pid : Nat) (hge : goodEnv env) (hgp : goodPenv penv)
    (herrs : ∀ m ∈ st.pls, m.ps.err = none) :
    (playM c env penv fuel st pid).toResume = st.toResume ∧
    (∀ m ∈ (playM c env penv fuel st pid).pls, m.ps.err = none) ∧
    (playM c env penv fuel st pid).pls.map MPlayer.pid = st.pls.map MPlayer.pid := by
  obtain ⟨henq, hprime, hstart, hpause, hstop, hread⟩ := hge
  unfold playM
  rcases hg : getPl st pid with _ | p
  · exact ⟨rfl, herrs, rfl⟩
  · have hperr : p.err = none := by
      obtain ⟨m, hm, hmp⟩ := getPl_mem st pid p hg
      exact hmp ▸ herrs m hm
    dsimp only
    rw [if_neg (by simp [hperr])]
    split
    · exact ⟨rfl, herrs, rfl⟩
    · cases haq : p.audioQueue with
      | some q0 =>
        dsimp only
        exact playMCore_good c env penv fuel st pid henq hprime hstart hread herrs
      | none =>
        obtain ⟨pool1, q, bufs, hget⟩ := Get_ok_of_good penv st.pool hgp
        rw [hget]
        dsimp only
        have herrs1 : ∀ m ∈ (addM (setPl {st with pool := pool1} pid
            {p with audioQueue := some q, unqueuedBufs := bufs}) q pid).pls,
            m.ps.err = none :=
          setPl_errs {st with pool := pool1} pid _ herrs hperr
        have h1 := playMCore_good c env penv fuel _ pid henq hprime hstart hread herrs1
        exact ⟨h1.1, h1.2.1, h1.2.2.trans (setPl_pids {st with pool := pool1} pid _)⟩

theorem setPl_pred (P : playerImpl → Prop) (st : MState) (pid : Nat) (ps : playerImpl)
    (hall : ∀ m ∈ st.pls, P m.ps) (hps : P ps) :
    ∀ m ∈ (setPl st pid ps).pls, P m.ps := by
  intro m hm
  unfold setPl at hm
  simp only [List.mem_map] at hm
  obtain ⟨m0, hm0, heq⟩ := hm
  subst heq
  by_cases h : m0.pid = pid
  · simpa [h] using hps
  · simpa [h] using hall m0 hm0

theorem getPl_bind_err_none (st : MState) (pid : Nat)
    (herrs : ∀ m ∈ st.pls, m.ps.err = none) :
    (getPl st pid).bind (fun p1 => p1.err) = none := by
  rcases hg : getPl st pid with _ | p
  · rfl
  · obtain ⟨m, hm, hmp⟩ := getPl_mem st pid p hg
    have : p.err = none := hmp ▸ herrs m hm
    simp [this]

theorem resumeGo_spec (c : context) (envs : Nat → Env) (penv : PoolEnv) (fuel : Nat)
    (hge : ∀ pid, goodEnv (envs pid)) (hgp : goodPenv penv) :
    ∀ (L : List Nat) (st : MState), (∀ m ∈ st.pls, m.ps.err = none) →
    (resumeGoM c envs penv fuel L st).2.2 = none ∧
    (resumeGoM c envs penv fuel L st).2.1 = L ∧
    (resumeGoM c envs penv fuel L st).1.toResume = st.toResume ∧
    (∀ m ∈ (resumeGoM c envs penv fuel L st).1.pls, m.ps.err = none) := by
  intro L
  induction L with
  | nil => intro st herrs; exact ⟨rfl, rfl, rfl, herrs⟩
  | cons pid rest ih =>
    intro st herrs
    rw [resumeGoM]
    have hpg := playM_good c (envs pid) penv fuel st pid (hge pid) hgp herrs
    have hb : (getPl (playM c (envs pid) penv fuel st pid) pid).bind
        (fun p1 => p1.err) = none :=
      getPl_bind_err_none _ pid hpg.2.1
    rw [hb]
    dsimp only
    obtain ⟨ih1, ih2, ih3, ih4⟩ := ih (playM c (envs pid) penv fuel st pid) hpg.2.1
    rcases hrec : resumeGoM c envs penv fuel rest (playM c (envs pid) penv fuel st pid)
      with ⟨st2, played, e⟩
    rw [hrec] at ih1 ih2 ih3 ih4
    simp only at ih1 ih2 ih3 ih4
    exact ⟨ih1, by simp [ih2], ih3.trans hpg.1, ih4⟩

theorem resumeM_spec (c : context) (envs : Nat → Env) (penv : PoolEnv) (fuel : Nat)
    (st : MState) (hge : ∀ pid, goodEnv (envs pid)) (hgp : goodPenv penv)
    (herrs : ∀ m ∈ st.pls, m.ps.err = none) :
    (resumeM c envs penv fuel st).2.2 = none ∧
    (resumeM c envs penv fuel st).2.1 = st.toResume ∧
    (resumeM c envs penv fuel st).1.toResume = [] ∧
    (∀ m ∈ (resumeM c envs penv fuel st).1.pls, m.ps.err = none) := by
  unfold resumeM
  have h := resumeGo_spec c envs penv fuel hge hgp st.toResume {st with toResume := []}
    herrs
  exact ⟨h.1, h.2.1, h.2.2.1, h.2.2.2⟩

theorem pauseM_play (env : Env) (penv : PoolEnv) (st : MState) (pid : Nat)
    (p : playerImpl) (q : Nat) (hg : getPl st pid = some p) (herr : p.err = none)
    (hplay : p.state = playerState.play) (haq : p.audioQueue = some q)
    (hpause : ∀ n, env.pauseResults n = .noErr) :
    pauseM env penv st pid =
      setPl st pid {p with pauses := p.pauses + 1, state := playerState.paused} := by
  unfold pauseM
  rw [hg]
  dsimp only
  rw [if_neg (by simp [herr]), if_neg (by simp [hplay]), if_neg (by simp [haq]),
    hpause p.pauses, if_neg (by simp)]
  exact setPl_setPl st pid _ _

theorem removeM_toResume (st : MState) (q pid : Nat)
    (h : lookupReg st.regs q = some pid) :
    (removeM st q).toResume = st.toResume.erase pid := by
  unfold removeM
  rw [h]

theorem recordResume_mem (st1 : MState) (pid x : Nat) :
    x ∈ (recordResume st1 pid).toResume ↔ x = pid ∨ x ∈ st1.toResume := by
  unfold recordResume
  dsimp only
  by_cases hc : pid ∈ st1.toResume
  · rw [if_pos hc]
    constructor
    · exact fun h => Or.inr h
    · rintro (rfl | h)
      · exact hc
      · exact h
  · rw [if_neg hc]
    simp [List.mem_append, or_comm]

theorem suspendGo_spec (c : context) (envs : Nat → Env) (penv : PoolEnv)
    (hge : ∀ pid, goodEnv (envs pid)) :
    ∀ (L : List (Nat × Nat)) (st : MState),
    (∀ m ∈ st.pls, m.ps.err = none) →
    (∀ m ∈ st.pls, m.ps.state = playerState.play → m.ps.audioQueue ≠ none) →
    (suspendGoM c envs penv L st).2 = none ∧
    (∀ m ∈ (suspendGoM c envs penv L st).1.pls, m.ps.err = none) ∧
    (suspendGoM c envs penv L st).1.regs = st.regs ∧
    (∀ x, x ∈ (suspendGoM c envs penv L st).1.toResume ↔
      x ∈ st.toResume ∨ (x ∈ L.map Prod.snd ∧
        ∃ p, getPl st x = some p ∧ p.state = playerState.play)) ∧
    (∀ x p0, getPl st x = some p0 → p0.state = playerState.play →
      x ∈ L.map Prod.snd →
      ∃ p1, getPl (suspendGoM c envs penv L st).1 x = some p1 ∧
        p1.state = playerState.paused) ∧
    (∀ x p0, getPl st x = some p0 → p0.state ≠ playerState.play →
      getPl (suspendGoM c envs penv L st).1 x = some p0) := by
  intro L
  induction L with
  | nil =>
    intro st herrs hqs
    rw [suspendGoM]
    refine ⟨rfl, herrs, rfl, ?_, ?_, ?_⟩
    · intro x
      simp
    · intro x p0 _ _ hx
      simp at hx
    · intro x p0 h _
      exact h
  | cons e0 rest ih =>
    rcases e0 with ⟨q0, pid0⟩
    intro st herrs hqs
    rw [suspendGoM]
    rcases hg : getPl st pid0 with _ | p
    · obtain ⟨ih1, ih2, ih3, ih4, ih5, ih6⟩ := ih st herrs hqs
      refine ⟨ih1, ih2, ih3, ?_, ?_, ih6⟩
      · intro x
        rw [ih4 x]
        simp only [List.map_cons, List.mem_cons]
        constructor
        · rintro (h | ⟨hx, hp⟩)
          · exact Or.inl h
          · exact Or.inr ⟨Or.inr hx, hp⟩
        · rintro (h | ⟨hx, hp⟩)
          · exact Or.inl h
          · rcases hx with rfl | hx
            · obtain ⟨p', hp', _⟩ := hp
              rw [hg] at hp'
              cases hp'
            · exact Or.inr ⟨hx, hp⟩
      · intro x p0 hx0 hplay hxmem
        simp only [List.map_cons, List.mem_cons] at hxmem
        rcases hxmem with rfl | hxr
        · rw [hg] at hx0
          cases hx0
        · exact ih5 x p0 hx0 hplay hxr
    · dsimp only
      by_cases hps : p.state = playerState.play
      · rw [if_neg (by simp [hps])]
        have hperr : p.err = none := by
          obtain ⟨m, hm, hmp⟩ := getPl_mem st pid0 p hg
          exact hmp ▸ herrs m hm
        have haqne : p.audioQueue ≠ none := by
          obtain ⟨m, hm, hmp⟩ := getPl_mem st pid0 p hg
          have hx := hqs m hm (by rw [hmp]; exact hps)
          rw [hmp] at hx
          exact hx
        obtain ⟨q1, haq⟩ : ∃ q1, p.audioQueue = some q1 := by
          cases haqx : p.audioQueue with
          | none => exact absurd haqx haqne
          | some qq => exact ⟨qq, rfl⟩
        rw [pauseM_play (envs pid0) penv st pid0 p q1 hg hperr hps haq (hge pid0).2.2.2.1]
        have hg2 : getPl (setPl st pid0
            {p with pauses := p.pauses + 1, state := playerState.paused}) pid0 =
            some {p with pauses := p.pauses + 1, state := playerState.paused} :=
          getPl_setPl_self st pid0 _ p hg
        have hb : (getPl (setPl st pid0
            {p with pauses := p.pauses + 1, state := playerState.paused}) pid0).bind
            (fun p1 => p1.err) = none := by
          rw [hg2]
          simpa using hperr
        rw [hb]
        dsimp only
        have herrs2 : ∀ m ∈ (recordResume (setPl st pid0
            {p with pauses := p.pauses + 1, state := playerState.paused}) pid0).pls,
            m.ps.err = none :=
          setPl_errs st pid0 _ herrs hperr
        have hqs2 : ∀ m ∈ (recordResume (setPl st pid0
            {p with pauses := p.pauses + 1, state := playerState.paused}) pid0).pls,
            m.ps.state = playerState.play → m.ps.audioQueue ≠ none :=
          setPl_pred (fun ps => ps.state = playerState.play → ps.audioQueue ≠ none)
            st pid0 _ hqs (fun hc => absurd hc (by simp))
        obtain ⟨ih1, ih2, ih3, ih4, ih5, ih6⟩ := ih (recordResume (setPl st pid0
          {p with pauses := p.pauses + 1, state := playerState.paused}) pid0)
          herrs2 hqs2
        have hget2 : ∀ x, x ≠ pid0 → getPl (recordResume (setPl st pid0
            {p with pauses := p.pauses + 1, state := playerState.paused}) pid0) x =
            getPl st x :=
          fun x hx => getPl_setPl_ne st pid0 x _ hx
        have hget2self : getPl (recordResume (setPl st pid0
            {p with pauses := p.pauses + 1, state := playerState.paused}) pid0) pid0 =
            some {p with pauses := p.pauses + 1, state := playerState.paused} := hg2
        have hmem2 : ∀ x, x ∈ (recordResume (setPl st pid0
            {p with pauses := p.pauses + 1, state := playerState.paused}) pid0).toResume ↔
            x = pid0 ∨ x ∈ st.toResume := by
          intro x
          exact recordResume_mem _ pid0 x
        refine ⟨ih1, ih2, ih3, ?_, ?_, ?_⟩
        · intro x
          rw [ih4 x]
          simp only [List.map_cons, List.mem_cons]
          constructor
          · rintro (hx | ⟨hxr, hp⟩)
            · rcases (hmem2 x).mp hx with rfl | hx2
              · exact Or.inr ⟨Or.inl rfl, p, hg, hps⟩
              · exact Or.inl hx2
            · obtain ⟨p', hp', hplay'⟩ := hp
              by_cases hx0 : x = pid0
              · subst hx0
                rw [hget2self] at hp'
                obtain rfl := Option.some.inj hp'
                simp at hplay'
              · rw [hget2 x hx0] at hp'
                exact Or.inr ⟨Or.inr hxr, p', hp', hplay'⟩
          · rintro (hx | ⟨hxr, hp⟩)
            · exact Or.inl ((hmem2 x).mpr (Or.inr hx))
            · rcases hxr with rfl | hxr
              · exact Or.inl ((hmem2 x).mpr (Or.inl rfl))
              · by_cases hx0 : x = pid0
                · exact Or.inl ((hmem2 x).mpr (Or.inl hx0))
                · obtain ⟨p', hp', hplay'⟩ := hp
                  refine Or.inr ⟨hxr, p', ?_, hplay'⟩
                  rw [hget2 x hx0]
                  exact hp'
        · intro x p0 hx0 hplay hxmem
          simp only [List.map_cons, List.mem_cons] at hxmem
          by_cases hxp : x = pid0
          · subst hxp
            have hr := ih6 x {p with pauses := p.pauses + 1, state := playerState.paused}
              hget2self (by simp)
            exact ⟨{p with pauses := p.pauses + 1, state := playerState.paused}, hr, rfl⟩
          · rcases hxmem with rfl | hxr
            · exact absurd rfl hxp
            · have hx2 : getPl (recordResume (setPl st pid0
                  {p with pauses := p.pauses + 1, state := playerState.paused}) pid0) x =
                  some p0 := by
                rw [hget2 x hxp]
                exact hx0
              exact ih5 x p0 hx2 hplay hxr
        · intro x p0 hx0 hnp
          by_cases hxp : x = pid0
          · subst hxp
            rw [hg] at hx0
            obtain rfl := Option.some.inj hx0
            exact absurd hps hnp
          · have hx2 : getPl (recordResume (setPl st pid0
                {p with pauses := p.pauses + 1, state := playerState.paused}) pid0) x =
                some p0 := by
              rw [hget2 x hxp]
              exact hx0
            exact ih6 x p0 hx2 hnp
      · rw [if_pos hps]
        obtain ⟨ih1, ih2, ih3, ih4, ih5, ih6⟩ := ih st herrs hqs
        refine ⟨ih1, ih2, ih3, ?_, ?_, ih6⟩
        · intro x
          rw [ih4 x]
          simp only [List.map_cons, List.mem_cons]
          constructor
          · rintro (h | ⟨hx, hp⟩)
            · exact Or.inl h
            · exact Or.inr ⟨Or.inr hx, hp⟩
          · rintro (h | ⟨hx, hp⟩)
            · exact Or.inl h
            · rcases hx with rfl | hx
              · obtain ⟨p', hp', hplay'⟩ := hp
                rw [hg] at hp'
                obtain rfl := Option.some.inj hp'
                exact absurd hplay' hps
              · exact Or.inr ⟨hx, hp⟩
        · intro x p0 hx0 hplay hxmem
          simp only [List.map_cons, List.mem_cons] at hxmem
          rcases hxmem with rfl | hxr
          · rw [hg] at hx0
            obtain rfl := Option.some.inj hx0
            exact absurd hplay hps
          · exact ih5 x p0 hx0 hplay hxr

theorem getPl_mem_pid (st : MState) (pid : Nat) (p : playerImpl)
    (h : getPl st pid = some p) : ∃ m ∈ st.pls, m.pid = pid ∧ m.ps = p := by
  unfold getPl at h
  rcases hf : st.pls.find? (fun m => m.pid = pid) with _ | m
  · rw [hf] at h
    simp at h
  · rw [hf] at h
    simp at h
    refine ⟨m, List.mem_of_find?_eq_some hf, ?_, h⟩
    have := List.find?_some hf
    simpa using this

theorem find?_pid_of_mem_nodup : ∀ (l : List MPlayer) (m : MPlayer),
    (l.map MPlayer.pid).Nodup → m ∈ l →
    l.find? (fun m2 => m2.pid = m.pid) = some m := by
  intro l
  induction l with
  | nil => intro m _ hm; cases hm
  | cons hd tl ih =>
    intro m hnd hm
    rcases List.mem_cons.mp hm with rfl | hm2
    · rw [List.find?_cons_of_pos _ (by simp)]
    · by_cases hph : hd.pid = m.pid
      · exfalso
        have hmem : hd.pid ∈ tl.map MPlayer.pid := by
          rw [hph]
          exact List.mem_map_of_mem _ hm2
        rw [List.map_cons] at hnd
        exact (List.nodup_cons.mp hnd).1 hmem
      · rw [List.find?_cons_of_neg _ (by simp [hph])]
        rw [List.map_cons] at hnd
        exact ih m (List.nodup_cons.mp hnd).2 hm2

theorem getPl_of_mem_nodup (st : MState) (m : MPlayer)
    (hnd : (st.pls.map MPlayer.pid).Nodup) (hm : m ∈ st.pls) :
    getPl st m.pid = some m.ps := by
  unfold getPl
  rw [find?_pid_of_mem_nodup st.pls m hnd hm]
  rfl

/-- C6: for every set of players (with distinct identities, no stored
errors, every playing player holding a queue and registered, and all
native calls succeeding), Suspend pauses exactly the players that were
Playing and records exactly their identities in the resume set; a player
unregistered between Suspend and Resume is dropped from the set
(`players.remove` erases it); Resume replays Play on exactly the recorded
set and no others and clears the set, so a second Resume replays
nothing. -/
theorem suspend_resume_exact_set (c : context) (envs : Nat → Env) (penv : PoolEnv)
    (fuel : Nat) (st0 : MState)
    (hge : ∀ pid, goodEnv (envs pid)) (hgp : goodPenv penv)
    (hres0 : st0.toResume = [])
    (hnd : (st0.pls.map MPlayer.pid).Nodup)
    (herrs : ∀ m ∈ st0.pls, m.ps.err = none)
    (hq : ∀ m ∈ st0.pls, m.ps.state = playerState.play → m.ps.audioQueue ≠ none)
    (hreg : ∀ m ∈ st0.pls, m.ps.state = playerState.play →
      m.pid ∈ st0.regs.map Prod.snd) :
    (suspendM c envs penv st0).2 = none ∧
    (∀ pid, pid ∈ (suspendM c envs penv st0).1.toResume ↔
      ∃ m ∈ st0.pls, m.pid = pid ∧ m.ps.state = playerState.play) ∧
    (∀ m ∈ st0.pls, m.ps.state = playerState.play →
      ∃ p1, getPl (suspendM c envs penv st0).1 m.pid = some p1 ∧
        p1.state = playerState.paused) ∧
    (∀ m ∈ st0.pls, m.ps.state ≠ playerState.play →
      getPl (suspendM c envs penv st0).1 m.pid = some m.ps) ∧
    (∀ q pid, lookupReg (suspendM c envs penv st0).1.regs q = some pid →
      (removeM (suspendM c envs penv st0).1 q).toResume =
        ((suspendM c envs penv st0).1.toResume).erase pid) ∧
    (∀ st : MState, (∀ m ∈ st.pls, m.ps.err = none) →
      (resumeM c envs penv fuel st).2.2 = none ∧
      (resumeM c envs penv fuel st).2.1 = st.toResume ∧
      (resumeM c envs penv fuel st).1.toResume = [] ∧
      (resumeM c envs penv fuel (resumeM c envs penv fuel st).1).2.1 = []) ∧
    (∀ m ∈ (suspendM c envs penv st0).1.pls, m.ps.err = none) := by
  unfold suspendM
  obtain ⟨hs1, hs2, hs3, hs4, hs5, hs6⟩ :=
    suspendGo_spec c envs penv hge st0.regs st0 herrs hq
  refine ⟨hs1, ?_, ?_, ?_, ?_, ?_, hs2⟩
  · intro pid
    rw [hs4 pid, hres0]
    simp only [List.not_mem_nil, false_or]
    constructor
    · rintro ⟨hmem, p, hp, hplay⟩
      obtain ⟨m, hm, hpid, hmp⟩ := getPl_mem_pid st0 pid p hp
      exact ⟨m, hm, hpid, by rw [hmp]; exact hplay⟩
    · rintro ⟨m, hm, rfl, hplay⟩
      exact ⟨hreg m hm hplay, m.ps, getPl_of_mem_nodup st0 m hnd hm, hplay⟩
  · intro m hm hplay
    exact hs5 m.pid m.ps (getPl_of_mem_nodup st0 m hnd hm) hplay (hreg m hm hplay)
  · intro m hm hnp
    exact hs6 m.pid m.ps (getPl_of_mem_nodup st0 m hnd hm) hnp
  · intro q pid h
    exact removeM_toResume _ q pid h
  · intro st herrs2
    obtain ⟨hr1, hr2, hr3, hr4⟩ := resumeM_spec c envs penv fuel st hge hgp herrs2
    refine ⟨hr1, hr2, hr3, ?_⟩
    obtain ⟨hr1b, hr2b, hr3b, hr4b⟩ :=
      resumeM_spec c envs penv fuel (resumeM c envs penv fuel st).1 hge hgp hr4
    rw [hr2b]
    exact hr3

/-- C6 witness: in a concrete two-player state (player 0 playing and
registered, player 1 paused), Suspend records exactly player 0, and Resume
on the suspended state replays Play on exactly the recorded set. -/
theorem suspend_resume_witness :
    (suspendM c0 (fun _ => envEmptySrc) penvAllOk mst0).2 = none ∧
    (0 ∈ (suspendM c0 (fun _ => envEmptySrc) penvAllOk mst0).1.toResume ↔
      ∃ m ∈ mst0.pls, m.pid = 0 ∧ m.ps.state = playerState.play) ∧
    (resumeM c0 (fun _ => envEmptySrc) penvAllOk 2
        (suspendM c0 (fun _ => envEmptySrc) penvAllOk mst0).1).2.1 =
      (suspendM c0 (fun _ => envEmptySrc) penvAllOk mst0).1.toResume := by
  have hgood0 : goodEnv envEmptySrc := by
    unfold goodEnv
    refine ⟨fun n => rfl, fun n => rfl, fun n => rfl, fun n => rfl, fun n => rfl, ?_⟩
    intro n code h
    simp [envEmptySrc] at h
  have hgoodp : goodPenv penvAllOk := by
    unfold goodPenv
    exact ⟨fun n => rfl, fun n => rfl, fun n => rfl, fun n => rfl⟩
  have h := suspend_resume_exact_set c0 (fun _ => envEmptySrc) penvAllOk 2 mst0
    (fun _ => hgood0) hgoodp rfl (by decide) (by decide) (by decide) (by decide)
  exact ⟨h.1, h.2.1 0, (h.2.2.2.2.2.1 _ h.2.2.2.2.2.2).2.1⟩
